import Mathlib

/-! The Express application of `src/app.js` (devops2_2)

A shallow embedding of the four route handlers of `src/app.js`, of the parts of
the JavaScript language they use (`parseInt`, `+` on Numbers, `!` on values,
object destructuring) and of the Express router that dispatches to them, with
the properties of the service stated and proved over that embedding. The
bodies of the handlers are also written out as programs over the bindings of
the module, to show what they share between requests.

JavaScript Numbers are IEEE-754 binary64 values.  A finite Number is carried by
its exact rational value, and every operation that produces a Number rounds its
exact result to the nearest binary64 value (ties to even), as the language does.
-/

namespace App

/-! ## JavaScript Numbers -/

/-- A JavaScript Number: NaN, the two infinities, negative zero, or a finite
value other than negative zero, given by its exact rational value (`fin 0` is
positive zero). -/
inductive JSNumber where
  | nan
  | posInf
  | negInf
  | negZero
  | fin (q : ℚ)
  deriving DecidableEq

/-- Rounding of a rational to the nearest integer, ties going to the even one. -/
def roundHalfEven (q : ℚ) : ℤ :=
  if q - ⌊q⌋ < 1 / 2 then ⌊q⌋
  else if 1 / 2 < q - ⌊q⌋ then ⌊q⌋ + 1
  else if ⌊q⌋ % 2 = 0 then ⌊q⌋ else ⌊q⌋ + 1

/-- Exponent of the unit in the last place of the binary64 binade of `q`:
53 significant bits, the exponent of the leading bit never below -1022. -/
def ulpExponent (q : ℚ) : ℤ :=
  max (Int.log 2 |q|) (-1022) - 52

/-- The Number nearest to the real `q`, which is what the language writes 𝔽(q)
for a computed result: round to nearest, ties to even, overflow to an infinity,
underflow to a zero of the sign of `q`. -/
def roundToDouble (q : ℚ) : JSNumber :=
  if q = 0 then .fin 0
  else
    let r : ℚ := (roundHalfEven (q / 2 ^ ulpExponent q) : ℚ) * 2 ^ ulpExponent q
    if 2 ^ (1024 : ℕ) ≤ |r| then (if q < 0 then .negInf else .posInf)
    else if r = 0 then (if q < 0 then .negZero else .fin 0)
    else .fin r

/-- The `+` operator on two Numbers (Number::add). -/
def JSNumber.add : JSNumber → JSNumber → JSNumber
  | .nan, _ => .nan
  | _, .nan => .nan
  | .posInf, .negInf => .nan
  | .negInf, .posInf => .nan
  | .posInf, _ => .posInf
  | _, .posInf => .posInf
  | .negInf, _ => .negInf
  | _, .negInf => .negInf
  | .negZero, .negZero => .negZero
  | .negZero, .fin q => .fin q
  | .fin p, .negZero => .fin p
  | .fin p, .fin q => if p + q = 0 then .fin 0 else roundToDouble (p + q)

/-- The mathematical value of a Number, when it has one; both zeros have
value 0. -/
def JSNumber.toRat? : JSNumber → Option ℚ
  | .fin q => some q
  | .negZero => some 0
  | _ => none

/-- What `JSON.stringify` writes for a Number: the numeral of a finite value
(`some`), and the literal `null` for NaN and the infinities (`none`). -/
def JSNumber.toJSON : JSNumber → Option ℚ
  | .fin q => some q
  | .negZero => some 0
  | _ => none

/-! ## `parseInt` -/

/-- The code points that the language counts as white space or as line
terminators, which `parseInt` skips at the start of its argument. -/
def isWhiteSpace (c : Char) : Bool :=
  c.toNat ∈ [0x09, 0x0A, 0x0B, 0x0C, 0x0D, 0x20, 0xA0, 0x1680, 0x2028, 0x2029,
    0x202F, 0x205F, 0x3000, 0xFEFF] || (0x2000 ≤ c.toNat && c.toNat ≤ 0x200A)

/-- Value of a character as a digit in a radix up to 36. -/
def digitValue (c : Char) : Option ℕ :=
  if 48 ≤ c.toNat ∧ c.toNat ≤ 57 then some (c.toNat - 48)        -- 0 to 9
  else if 97 ≤ c.toNat ∧ c.toNat ≤ 122 then some (c.toNat - 87)  -- a to z
  else if 65 ≤ c.toNat ∧ c.toNat ≤ 90 then some (c.toNat - 55)   -- A to Z
  else none

/-- Value of a character as a digit of radix `R`, if it is one. -/
def radixDigit (R : ℕ) (c : Char) : Option ℕ :=
  (digitValue c).filter (fun d => d < R)

/-- The digits of the longest run of radix-`R` digits that starts the input. -/
def takeDigits (R : ℕ) : List Char → List ℕ
  | [] => []
  | c :: cs =>
    match radixDigit R c with
    | some d => d :: takeDigits R cs
    | none => []

/-- The integer that a list of digits denotes in radix `R`. -/
def mathInt (R : ℕ) (ds : List ℕ) : ℕ :=
  ds.foldl (fun acc d => acc * R + d) 0

/-- Removal of one leading sign character. -/
def dropSign : List Char → List Char
  | c :: cs => if c = '+' ∨ c = '-' then cs else c :: cs
  | [] => []

/-- The radix selected by the text that follows the sign, and the text that is
left to scan: 16 after a leading `0x` or `0X`, which is removed, else 10. -/
def selectRadix : List Char → ℕ × List Char
  | c :: x :: cs => if c = '0' ∧ (x = 'x' ∨ x = 'X') then (16, cs) else (10, c :: x :: cs)
  | cs => (10, cs)

/-- The call `parseInt(s)` with no radix argument: leading white space is
skipped, one sign is read, a `0x` selects radix 16, the longest run of digits
is read exactly, and the signed integer is rounded to a Number; NaN when there
is no digit. -/
def parseInt (s : String) : JSNumber :=
  let trimmed := s.toList.dropWhile isWhiteSpace
  let negative : Bool := trimmed.head? = some '-'
  let (R, rest) := selectRadix (dropSign trimmed)
  let Z := takeDigits R rest
  if Z = [] then .nan
  else if mathInt R Z = 0 then (if negative then .negZero else .fin 0)
  else roundToDouble (if negative then -(mathInt R Z : ℚ) else (mathInt R Z : ℚ))

/-! ## JavaScript values -/

/-- The JavaScript values that a decoded JSON body, a route parameter or a
response body of this application can hold. -/
inductive JSValue where
  | undefined
  | null
  | bool (b : Bool)
  | num (n : JSNumber)
  | str (s : String)
  | date (ms : ℤ)
  | arr (items : List JSValue)
  | obj (props : List (String × JSValue))

/-- ToBoolean, the conversion behind `!` and `||`: `undefined`, `null`,
`false`, both zeros, NaN and the empty string are falsy, everything else is
truthy. -/
def JSValue.truthy : JSValue → Bool
  | .undefined => false
  | .null => false
  | .bool b => b
  | .num .nan => false
  | .num .negZero => false
  | .num (.fin q) => decide (q ≠ 0)
  | .num _ => true
  | .str s => decide (s ≠ "")
  | .date _ => true
  | .arr _ => true
  | .obj _ => true

/-- An exception thrown by a handler. -/
inductive JSError where
  | typeError

/-- Reading the property `key` while destructuring `v`, for the keys `name`
and `email` that the application reads: destructuring `undefined` or `null`
throws a TypeError, an object gives the value it holds under the key, and any
other value has no such property. -/
def JSValue.getProp (v : JSValue) (key : String) : Except JSError JSValue :=
  match v with
  | .undefined => .error .typeError
  | .null => .error .typeError
  | .obj props => .ok ((props.lookup key).getD .undefined)
  | _ => .ok .undefined

/-! ## Responses and handlers -/

/-- What a response carries: a value serialized as JSON by `res.json`, or one
of the bodies that the framework writes itself (the `Allow` list of an
automatic OPTIONS reply, the page of its final error handler), or nothing. -/
inductive Body where
  | json (v : JSValue)
  | allow (methods : List String)
  | errorPage
  | empty

/-- A response: status code and body. -/
structure Response where
  status : ℕ
  body : Body

/-- Handler of `app.get("/health")`; `now` is the reading of `new Date()`. -/
def getHealth (now : ℤ) : Response :=
  ⟨200, .json (.obj [("status", .str "healthy"), ("timestamp", .date now)])⟩

/-- Handler of `app.get("/api/users")`. -/
def getUsers : Response :=
  ⟨200, .json (.arr [
    .obj [("id", .num (.fin 1)), ("name", .str "John"), ("email", .str "john@example.com")],
    .obj [("id", .num (.fin 2)), ("name", .str "Jane"), ("email", .str "jane@example.com")]])⟩

/-- Handler of `app.post("/api/users")` on the request body `body`; `now` is
the reading of `new Date()`. -/
def postUsers (body : JSValue) (now : ℤ) : Except JSError Response := do
  let name ← body.getProp "name"
  let email ← body.getProp "email"
  if !name.truthy || !email.truthy then
    return ⟨400, .json (.obj [("error", .str "Name and email required")])⟩
  return ⟨201, .json (.obj [("id", .num (.fin 3)), ("name", name), ("email", email),
    ("createdAt", .date now)])⟩

/-- Handler of `app.get("/api/sum/:a/:b")` on the route parameters. -/
def getSum (pa pb : String) : Response :=
  let a := parseInt pa
  let b := parseInt pb
  ⟨200, .json (.obj [("a", .num a), ("b", .num b), ("sum", .num (a.add b))])⟩

/-! ## The Express router

`app.get` and `app.post` register routes on the application's router, which
runs with the framework's default settings: paths are compared without regard
to letter case, one trailing slash is optional, a route registered for GET also
serves HEAD, a captured parameter is percent-decoded and a request whose
parameter fails to decode is refused with 400, an OPTIONS request that no route
handles is answered with the list of the methods registered for its path, and
a request that nothing answers goes to the final handler, which replies 404.
-/

/-- One segment of a route path: literal text, or a named parameter `:name`. -/
inductive Seg where
  | lit (text : List Char)
  | param (name : String)

/-- The handlers registered in `src/app.js`. -/
inductive Handler where
  | health
  | listUsers
  | createUser
  | sum
  deriving DecidableEq

/-- A registered route: lower-case method name, path pattern, handler. -/
structure Route where
  method : String
  path : String
  handler : Handler

/-- The routes of `src/app.js`, in the order of their registration. -/
def routes : List Route :=
  [ ⟨"get", "/health", .health⟩,
    ⟨"get", "/api/users", .listUsers⟩,
    ⟨"post", "/api/users", .createUser⟩,
    ⟨"get", "/api/sum/:a/:b", .sum⟩ ]

/-- The pieces of a text between its slashes, as `split("/")` gives them. -/
def splitSlash : List Char → List (List Char)
  | [] => [[]]
  | c :: cs =>
    if c = '/' then [] :: splitSlash cs
    else
      match splitSlash cs with
      | [] => [[c]]
      | s :: ss => (c :: s) :: ss

/-- The segments of a route path made of literal segments and `:name`
parameters, which is the form of every path registered here. -/
def compilePath (path : String) : List Seg :=
  (splitSlash path.toList).tail.map fun s =>
    match s with
    | ':' :: name => Seg.param (String.mk name)
    | _ => Seg.lit s

/-- Matching of the segments of a request path against a pattern: a literal
segment matches the same text in any letter case, a parameter captures one
non-empty segment, and one empty segment may follow the last one (the optional
trailing slash). The captures come back in order, not yet decoded. -/
def matchSegs : List Seg → List (List Char) → Option (List (String × List Char))
  | [], [] => some []
  | [], [[]] => some []
  | [], _ => none
  | _ :: _, [] => none
  | .lit text :: ps, s :: ss =>
    if s.map Char.toLower = text.map Char.toLower then matchSegs ps ss else none
  | .param name :: ps, s :: ss =>
    if s = [] then none else (matchSegs ps ss).map fun caps => (name, s) :: caps

/-- Matching of a request path against a route path. -/
def matchPath (pattern : String) (path : String) : Option (List (String × List Char)) :=
  match splitSlash path.toList with
  | [] :: segs => matchSegs (compilePath pattern) segs
  | _ => none

/-- The octet written by two hexadecimal digits. -/
def hexOctet (h l : Char) : Option ℕ :=
  match radixDigit 16 h, radixDigit 16 l with
  | some a, some b => some (16 * a + b)
  | _, _ => none

/-- First half of `decodeURIComponent`: every `%XX` escape becomes the octet
it writes; a `%` not followed by two hexadecimal digits is a URIError. -/
def unescapeOctets : List Char → Option (List (Char ⊕ ℕ))
  | [] => some []
  | c :: cs =>
    if c = '%' then
      match cs with
      | h :: l :: rest =>
        match hexOctet h l, unescapeOctets rest with
        | some b, some tl => some (.inr b :: tl)
        | _, _ => none
      | _ => none
    else (unescapeOctets cs).map fun tl => .inl c :: tl

/-- Whether an octet is a UTF-8 continuation octet. -/
def isContinuation (b : ℕ) : Bool :=
  0x80 ≤ b && b ≤ 0xBF

/-- Second half of `decodeURIComponent`: the escaped octets are read as UTF-8;
an octet sequence that is not the UTF-8 encoding of a code point is a
URIError. -/
def decodeOctets : List (Char ⊕ ℕ) → Option (List Char)
  | [] => some []
  | .inl c :: rest => (decodeOctets rest).map fun tl => c :: tl
  | .inr b :: rest =>
    if b < 0x80 then (decodeOctets rest).map fun tl => Char.ofNat b :: tl
    else if 0xC0 ≤ b ∧ b < 0xE0 then
      match rest with
      | .inr b1 :: rest1 =>
        if isContinuation b1 ∧ 0x80 ≤ (b % 32) * 64 + b1 % 64 then
          (decodeOctets rest1).map fun tl => Char.ofNat ((b % 32) * 64 + b1 % 64) :: tl
        else none
      | _ => none
    else if 0xE0 ≤ b ∧ b < 0xF0 then
      match rest with
      | .inr b1 :: .inr b2 :: rest2 =>
        if isContinuation b1 ∧ isContinuation b2
            ∧ 0x800 ≤ (b % 16) * 4096 + (b1 % 64) * 64 + b2 % 64
            ∧ ¬ (0xD800 ≤ (b % 16) * 4096 + (b1 % 64) * 64 + b2 % 64
              ∧ (b % 16) * 4096 + (b1 % 64) * 64 + b2 % 64 ≤ 0xDFFF) then
          (decodeOctets rest2).map fun tl =>
            Char.ofNat ((b % 16) * 4096 + (b1 % 64) * 64 + b2 % 64) :: tl
        else none
      | _ => none
    else if 0xF0 ≤ b ∧ b < 0xF8 then
      match rest with
      | .inr b1 :: .inr b2 :: .inr b3 :: rest3 =>
        if isContinuation b1 ∧ isContinuation b2 ∧ isContinuation b3
            ∧ 0x10000 ≤ (b % 8) * 262144 + (b1 % 64) * 4096 + (b2 % 64) * 64 + b3 % 64
            ∧ (b % 8) * 262144 + (b1 % 64) * 4096 + (b2 % 64) * 64 + b3 % 64 ≤ 0x10FFFF then
          (decodeOctets rest3).map fun tl =>
            Char.ofNat ((b % 8) * 262144 + (b1 % 64) * 4096 + (b2 % 64) * 64 + b3 % 64) :: tl
        else none
      | _ => none
    else none

/-- The call `decodeURIComponent(s)`; `none` when it throws a URIError. -/
def decodeURIComponent (s : List Char) : Option (List Char) :=
  (unescapeOctets s).bind decodeOctets

/-- Decoding of the captures of a matched path into `req.params`; `none` when
a capture fails to decode. -/
def decodeParams : List (String × List Char) → Option (List (String × String))
  | [] => some []
  | (name, raw) :: caps =>
    match decodeURIComponent raw, decodeParams caps with
    | some v, some tl => some ((name, String.mk v) :: tl)
    | _, _ => none

/-- A request as the router sees it: the method token, the path of the URL
without its query, and `req.body` as the JSON body parser left it (`express.json()`
runs before the routes; a request whose body it rejects does not reach them). -/
structure Request where
  method : String
  path : String
  body : JSValue

/-- Result of matching one route against a request path. -/
inductive LayerMatch where
  | noMatch
  | decodeError
  | matched (params : List (String × String))

/-- Matching of the path of a route against a request path, with the decoding
of the captured parameters. -/
def matchLayer (r : Route) (path : String) : LayerMatch :=
  match matchPath r.path path with
  | none => .noMatch
  | some caps =>
    match decodeParams caps with
    | none => .decodeError
    | some params => .matched params

/-- Lower-casing of a method token, which is made of ASCII characters. -/
def lowerCase (s : String) : String :=
  String.mk (s.toList.map Char.toLower)

/-- Upper-casing of a method name. -/
def upperCase (s : String) : String :=
  String.mk (s.toList.map Char.toUpper)

/-- Whether a route answers a method: its own, and HEAD when it is registered
for GET. -/
def handlesMethod (r : Route) (method : String) : Bool :=
  let name := lowerCase method
  let name := if name = "head" ∧ r.method ≠ "head" then "get" else name
  name = r.method

/-- The methods that a route contributes to an automatic OPTIONS reply. -/
def routeOptions (r : Route) : List String :=
  if r.method = "get" then [upperCase r.method, "HEAD"] else [upperCase r.method]

/-- Addition to a list of the methods that it does not hold yet. -/
def appendMethods (list : List String) : List String → List String
  | [] => list
  | m :: ms => appendMethods (if m ∈ list then list else list ++ [m]) ms

/-- What the router decides for a request. -/
inductive Outcome where
  | run (h : Handler) (params : List (String × String))
  | badParam
  | options (allow : List String)
  | notFound

/-- The router's walk over the routes that are left, with the decoding error
that is pending and the methods collected so far for an OPTIONS reply. -/
def dispatch (method path : String) : List Route → Bool → List String → Outcome
  | [], pending, opts =>
    if pending then .badParam
    else if method = "OPTIONS" ∧ opts ≠ [] then .options opts
    else .notFound
  | r :: rs, pending, opts =>
    match matchLayer r path with
    | .noMatch => dispatch method path rs pending opts
    | .decodeError => dispatch method path rs true opts
    | .matched params =>
      if pending then dispatch method path rs pending opts
      else if handlesMethod r method then .run r.handler params
      else if method = "OPTIONS" then
        dispatch method path rs pending (appendMethods opts (routeOptions r))
      else dispatch method path rs pending opts

/-- The router's decision for a request over the routes of the application. -/
def route (method path : String) : Outcome :=
  dispatch method path routes false []

/-- Whether a route answers a request: it serves the method, and its path
matches the path of the request. -/
def Route.answers (r : Route) (method path : String) : Bool :=
  handlesMethod r method && (matchPath r.path path).isSome

/-- The value of `req.params[key]` as `parseInt` reads it: the text of the
parameter, or the text `undefined` when there is none. -/
def paramText (params : List (String × String)) (key : String) : String :=
  (params.lookup key).getD "undefined"

/-- The call of a handler on a request. -/
def runHandler (h : Handler) (params : List (String × String)) (req : Request) (now : ℤ) :
    Except JSError Response :=
  match h with
  | .health => .ok (getHealth now)
  | .listUsers => .ok getUsers
  | .createUser => postUsers req.body now
  | .sum => .ok (getSum (paramText params "a") (paramText params "b"))

/-- The answer of the application to a request handled at clock reading `now`.
An exception in a handler and a parameter that fails to decode go to the
framework's error handler (500 and 400), and the body of the answer to a HEAD
request is dropped. -/
def handle (req : Request) (now : ℤ) : Response :=
  match route req.method req.path with
  | .run h params =>
    match runHandler h params req now with
    | .ok r => if req.method = "HEAD" then ⟨r.status, .empty⟩ else r
    | .error _ => ⟨500, .errorPage⟩
  | .badParam => ⟨400, .errorPage⟩
  | .options allow => ⟨200, .allow allow⟩
  | .notFound => ⟨404, .errorPage⟩

/-! ## The handler bodies as programs

The bodies of the four handlers, written out in the fragment of the language
that they use, and run over the bindings of the module, which are what a
handler can share with the requests that follow. Besides the statements of the
handlers the fragment has the assignment to a binding of the module; no
handler of `src/app.js` holds one.
-/

mutual
/-- Expressions of the handler bodies. -/
inductive Expr where
  | str (s : String)                  -- a string literal
  | num (n : ℕ)                       -- a numeric literal
  | ident (x : String)                -- a variable
  | reqBody                           -- `req.body`
  | reqParam (key : String)           -- `req.params.key`
  | newDate                           -- `new Date()`
  | parseInt (e : Expr)               -- `parseInt(e)`
  | plus (a b : Expr)                 -- `a + b`
  | not (e : Expr)                    -- `!e`
  | or (a b : Expr)                   -- `a || b`
  | object (fields : Fields)          -- an object literal
  | array (items : Items)             -- an array literal
/-- The fields of an object literal; the shorthand `name` is `name: name`. -/
inductive Fields where
  | nil
  | cons (key : String) (value : Expr) (rest : Fields)
/-- The items of an array literal. -/
inductive Items where
  | nil
  | cons (item : Expr) (rest : Items)
end

/-- Statements of the handler bodies, each with the statements that follow it. -/
inductive Stmt where
  /-- The statement `const { n1, n2 } = e;`. -/
  | constDestructure (names : List String) (e : Expr) (rest : Stmt)
  /-- The statement `const x = e;`. -/
  | const (x : String) (e : Expr) (rest : Stmt)
  /-- The statement `x = e;` on a binding of the module. -/
  | assign (x : String) (e : Expr) (rest : Stmt)
  /-- The statement `if (c) { return res.status(status).json(v); }`. -/
  | ifReturn (c : Expr) (status : ℕ) (v : Expr) (rest : Stmt)
  /-- The statement `res.status(status).json(v);` that ends a body; `res.json(v)`
  has status 200. -/
  | json (status : ℕ) (v : Expr)

/-- How the evaluation of a body can fail: an exception of the language, or an
operand outside the part of an operator that is modelled here. -/
inductive Fault where
  | typeError
  | referenceError
  | unmodelled

/-- The fault that stands for an exception of a handler. -/
def faultOf : JSError → Fault
  | .typeError => .typeError

/-- What a body sees while it runs: the bindings of the module, the constants
of the handler declared so far, the request with its route parameters, and the
clock reading. -/
structure Scope where
  bindings : List (String × JSValue)
  locals : List (String × JSValue)
  req : Request
  params : List (String × String)
  now : ℤ

mutual
/-- The value of an expression. `parseInt` is modelled on a string and on
`undefined`, `+` on two Numbers. -/
def Expr.eval : Expr → Scope → Except Fault JSValue
  | .str s, _ => .ok (.str s)
  | .num n, _ => .ok (.num (.fin n))
  | .ident x, sc =>
    match sc.locals.lookup x with
    | some v => .ok v
    | none =>
      match sc.bindings.lookup x with
      | some v => .ok v
      | none => .error .referenceError
  | .reqBody, sc => .ok sc.req.body
  | .reqParam key, sc =>
    match sc.params.lookup key with
    | some v => .ok (.str v)
    | none => .ok .undefined
  | .newDate, sc => .ok (.date sc.now)
  | .parseInt e, sc =>
    match e.eval sc with
    | .ok (.str s) => .ok (.num (App.parseInt s))
    | .ok .undefined => .ok (.num (App.parseInt "undefined"))
    | .ok _ => .error .unmodelled
    | .error f => .error f
  | .plus a b, sc =>
    match a.eval sc with
    | .ok va =>
      match b.eval sc with
      | .ok vb =>
        match va, vb with
        | .num x, .num y => .ok (.num (x.add y))
        | _, _ => .error .unmodelled
      | .error f => .error f
    | .error f => .error f
  | .not e, sc =>
    match e.eval sc with
    | .ok v => .ok (.bool (!v.truthy))
    | .error f => .error f
  | .or a b, sc =>
    match a.eval sc with
    | .ok va => if va.truthy then .ok va else b.eval sc
    | .error f => .error f
  | .object fields, sc =>
    match fields.eval sc with
    | .ok props => .ok (.obj props)
    | .error f => .error f
  | .array items, sc =>
    match items.eval sc with
    | .ok vs => .ok (.arr vs)
    | .error f => .error f
/-- The properties that the fields of an object literal give, in order. -/
def Fields.eval : Fields → Scope → Except Fault (List (String × JSValue))
  | .nil, _ => .ok []
  | .cons key value rest, sc =>
    match value.eval sc with
    | .ok v =>
      match rest.eval sc with
      | .ok props => .ok ((key, v) :: props)
      | .error f => .error f
    | .error f => .error f
/-- The values of the items of an array literal, in order. -/
def Items.eval : Items → Scope → Except Fault (List JSValue)
  | .nil, _ => .ok []
  | .cons item rest, sc =>
    match item.eval sc with
    | .ok v =>
      match rest.eval sc with
      | .ok vs => .ok (v :: vs)
      | .error f => .error f
    | .error f => .error f
end

/-- The constants that `const { n1, n2 } = v` declares. -/
def destructure (v : JSValue) : List String → Except Fault (List (String × JSValue))
  | [] =>
    match v with
    | .undefined => .error .typeError
    | .null => .error .typeError
    | _ => .ok []
  | name :: names =>
    match v.getProp name with
    | .ok x =>
      match destructure v names with
      | .ok rest => .ok ((name, x) :: rest)
      | .error f => .error f
    | .error _ => .error .typeError

/-- The run of a body: the bindings of the module when it ends, and the
response that it sends or the fault that stops it. -/
def Stmt.exec : Stmt → Scope → List (String × JSValue) × Except Fault Response
  | .constDestructure names e rest, sc =>
    match e.eval sc with
    | .ok v =>
      match destructure v names with
      | .ok consts => rest.exec { sc with locals := consts ++ sc.locals }
      | .error f => (sc.bindings, .error f)
    | .error f => (sc.bindings, .error f)
  | .const x e rest, sc =>
    match e.eval sc with
    | .ok v => rest.exec { sc with locals := (x, v) :: sc.locals }
    | .error f => (sc.bindings, .error f)
  | .assign x e rest, sc =>
    match e.eval sc with
    | .ok v =>
      if (sc.locals.lookup x).isSome then (sc.bindings, .error .typeError)
      else rest.exec { sc with bindings := (x, v) :: sc.bindings.filter fun p => p.1 ≠ x }
    | .error f => (sc.bindings, .error f)
  | .ifReturn c status v rest, sc =>
    match c.eval sc with
    | .ok cv =>
      if cv.truthy then
        match v.eval sc with
        | .ok x => (sc.bindings, .ok ⟨status, .json x⟩)
        | .error f => (sc.bindings, .error f)
      else rest.exec sc
    | .error f => (sc.bindings, .error f)
  | .json status v, sc =>
    match v.eval sc with
    | .ok x => (sc.bindings, .ok ⟨status, .json x⟩)
    | .error f => (sc.bindings, .error f)

/-- The bodies of the handlers of `src/app.js`, lines 7 to 37. -/
def Handler.body : Handler → Stmt
  | .health =>
    .json 200 (.object (.cons "status" (.str "healthy") (.cons "timestamp" .newDate .nil)))
  | .listUsers =>
    .json 200 (.array
      (.cons (.object (.cons "id" (.num 1) (.cons "name" (.str "John")
        (.cons "email" (.str "john@example.com") .nil))))
      (.cons (.object (.cons "id" (.num 2) (.cons "name" (.str "Jane")
        (.cons "email" (.str "jane@example.com") .nil))))
      .nil)))
  | .createUser =>
    .constDestructure ["name", "email"] .reqBody
      (.ifReturn (.or (.not (.ident "name")) (.not (.ident "email"))) 400
        (.object (.cons "error" (.str "Name and email required") .nil))
      (.json 201 (.object (.cons "id" (.num 3) (.cons "name" (.ident "name")
        (.cons "email" (.ident "email") (.cons "createdAt" .newDate .nil)))))))
  | .sum =>
    .const "a" (.parseInt (.reqParam "a"))
      (.const "b" (.parseInt (.reqParam "b"))
      (.json 200 (.object (.cons "a" (.ident "a") (.cons "b" (.ident "b")
        (.cons "sum" (.plus (.ident "a") (.ident "b")) .nil))))))

/-! ## The process -/

/-- What the process keeps between requests: the bindings of the module that
hold data. -/
structure Server where
  bindings : List (String × JSValue)

/-- The server as started without a PORT in the environment:
`PORT = process.env.PORT || 3000`. -/
def Server.start : Server :=
  ⟨[("PORT", .num (.fin 3000))]⟩

/-- One request served at clock reading `now`: the state of the process
afterwards and the answer; `none` when the run of the handler leaves the
fragment of the language that is modelled. The router decides as in `handle`,
and the body of the handler runs over the bindings of the module. -/
def Server.step (s : Server) (req : Request) (now : ℤ) : Option (Server × Response) :=
  match route req.method req.path with
  | .run h params =>
    match h.body.exec ⟨s.bindings, [], req, params, now⟩ with
    | (_, .error .unmodelled) => none
    | (bindings, .error _) => some (⟨bindings⟩, ⟨500, .errorPage⟩)
    | (bindings, .ok r) =>
      some (⟨bindings⟩, if req.method = "HEAD" then ⟨r.status, .empty⟩ else r)
  | .badParam => some (s, ⟨400, .errorPage⟩)
  | .options allow => some (s, ⟨200, .allow allow⟩)
  | .notFound => some (s, ⟨404, .errorPage⟩)

/-- The state of the process after it served a sequence of requests. -/
def Server.run (s : Server) : List (Request × ℤ) → Option Server
  | [] => some s
  | (req, now) :: rest =>
    match s.step req now with
    | some (s', _) => s'.run rest
    | none => none

/-- The answer to a request that the process serves after a sequence of
earlier requests. -/
def Server.answerAfter (s : Server) (history : List (Request × ℤ)) (req : Request) (now : ℤ) :
    Option Response :=
  match s.run history with
  | some s' => (s'.step req now).map Prod.snd
  | none => none


/-! ## Rounding of integers -/

theorem roundHalfEven_intCast (m : ℤ) : roundHalfEven (m : ℚ) = m := by
  simp [roundHalfEven]

/-- Rounding is exact on a value that is a whole multiple of its unit in the last place. -/
theorem roundToDouble_of_multiple (q : ℚ) (m : ℤ) (hq : q ≠ 0) (hm : q / 2 ^ ulpExponent q = m)
    (hlt : |q| < 2 ^ (1024 : ℕ)) : roundToDouble q = .fin q := by
  have h2 : (2 : ℚ) ^ ulpExponent q ≠ 0 := zpow_ne_zero _ (by norm_num)
  have hr : (roundHalfEven (q / 2 ^ ulpExponent q) : ℚ) * 2 ^ ulpExponent q = q := by
    rw [hm, roundHalfEven_intCast, ← hm]
    field_simp
  simp only [roundToDouble, hq, if_false, hr]
  rw [if_neg (not_le.mpr hlt)]

theorem ulpExponent_of_small (q : ℚ) (h1 : 1 ≤ |q|) (h2 : |q| < 2 ^ (53 : ℕ)) :
    ulpExponent q ≤ 0 := by
  have hpos : 0 < |q| := lt_of_lt_of_le one_pos h1
  have hlog : Int.log 2 |q| < 53 := by
    rw [← Int.lt_zpow_iff_log_lt (by norm_num) hpos]
    exact_mod_cast h2
  unfold ulpExponent
  have : max (Int.log 2 |q|) (-1022) ≤ 52 := max_le (by omega) (by norm_num)
  omega

theorem roundToDouble_intCast_lt (z : ℤ) (hz : |z| < 2 ^ 53) : roundToDouble (z : ℚ) = .fin z := by
  by_cases h0 : z = 0
  · subst h0; simp [roundToDouble]
  have hq : (z : ℚ) ≠ 0 := by exact_mod_cast h0
  have h1 : (1 : ℚ) ≤ |(z : ℚ)| := by
    have : (1 : ℤ) ≤ |z| := Int.one_le_abs h0
    exact_mod_cast this
  have h2 : |(z : ℚ)| < 2 ^ (53 : ℕ) := by exact_mod_cast hz
  have he := ulpExponent_of_small _ h1 h2
  obtain ⟨k, hk⟩ : ∃ k : ℕ, ulpExponent (z : ℚ) = -(k : ℤ) := ⟨(-ulpExponent (z : ℚ)).toNat, by omega⟩
  refine roundToDouble_of_multiple _ (z * 2 ^ k) hq ?_ ?_
  · rw [hk, zpow_neg, zpow_natCast]
    push_cast
    field_simp
  · calc |(z : ℚ)| < 2 ^ (53 : ℕ) := h2
      _ ≤ 2 ^ (1024 : ℕ) := by norm_num

theorem ulpExponent_eq (q : ℚ) (L : ℤ) (hL : -1022 ≤ L) (h1 : (2 : ℚ) ^ L ≤ |q|)
    (h2 : |q| < (2 : ℚ) ^ (L + 1)) : ulpExponent q = L - 52 := by
  have hpos : 0 < |q| := lt_of_lt_of_le (zpow_pos (by norm_num) L) h1
  have hle : L ≤ Int.log 2 |q| := by
    rw [← Int.zpow_le_iff_le_log (by norm_num) hpos]
    exact_mod_cast h1
  have hlt : Int.log 2 |q| < L + 1 := by
    rw [← Int.lt_zpow_iff_log_lt (by norm_num) hpos]
    exact_mod_cast h2
  have : Int.log 2 |q| = L := by omega
  unfold ulpExponent
  rw [this, max_eq_left hL]

theorem ulpExponent_two_pow_53 : ulpExponent (9007199254740992 : ℚ) = 1 := by
  have := ulpExponent_eq 9007199254740992 53 (by norm_num) (by norm_num [abs_of_pos])
    (by norm_num [abs_of_pos])
  simpa using this

theorem ulpExponent_neg (q : ℚ) : ulpExponent (-q) = ulpExponent q := by
  simp [ulpExponent]

theorem roundToDouble_two_pow_53 :
    roundToDouble (9007199254740992 : ℚ) = .fin 9007199254740992 := by
  refine roundToDouble_of_multiple _ 4503599627370496 (by norm_num) ?_ (by norm_num [abs_of_pos])
  rw [ulpExponent_two_pow_53]; norm_num

theorem roundToDouble_neg_two_pow_53 :
    roundToDouble (-9007199254740992 : ℚ) = .fin (-9007199254740992) := by
  refine roundToDouble_of_multiple _ (-4503599627370496) (by norm_num) ?_
    (by norm_num [abs_of_pos])
  rw [ulpExponent_neg, ulpExponent_two_pow_53]; norm_num

/-- Rounding is exact on every integer of absolute value at most 2^53. -/
theorem roundToDouble_intCast (z : ℤ) (hz : |z| ≤ 2 ^ 53) : roundToDouble (z : ℚ) = .fin z := by
  rcases lt_or_eq_of_le hz with h | h
  · exact roundToDouble_intCast_lt z h
  · rcases abs_eq (by norm_num : (0 : ℤ) ≤ 2 ^ 53) |>.mp h with h | h
    · subst h; simpa using roundToDouble_two_pow_53
    · subst h; simpa using roundToDouble_neg_two_pow_53

theorem ulpExponent_two_pow_53_succ : ulpExponent (9007199254740993 : ℚ) = 1 := by
  have := ulpExponent_eq 9007199254740993 53 (by norm_num) (by norm_num [abs_of_pos])
    (by norm_num [abs_of_pos])
  simpa using this

/-- The integer 2^53 + 1 is not a Number: it rounds to 2^53. -/
theorem roundToDouble_two_pow_53_succ :
    roundToDouble (9007199254740993 : ℚ) = .fin 9007199254740992 := by
  have hfloor : ⌊(9007199254740993 : ℚ) / 2⌋ = 4503599627370496 := by
    rw [Int.floor_eq_iff]; norm_num
  have hr : roundHalfEven ((9007199254740993 : ℚ) / 2) = 4503599627370496 := by
    simp only [roundHalfEven, hfloor]
    norm_num
  simp only [roundToDouble, ulpExponent_two_pow_53_succ, zpow_one, hr]
  norm_num [abs_of_pos]

/-! ## Routing of the registered paths -/

theorem route_get_health : route "GET" "/health" = .run .health [] := rfl

theorem route_get_users : route "GET" "/api/users" = .run .listUsers [] := rfl

theorem route_post_users : route "POST" "/api/users" = .run .createUser [] := rfl

/-- Claim C5. Every GET /health request is answered 200 with the body
`status: "healthy", timestamp: now`, where `now` is the clock reading taken by
the handler, and the handler returns normally on every request. -/
theorem health_always_healthy (body : JSValue) (now : ℤ) :
    handle ⟨"GET", "/health", body⟩ now
        = ⟨200, .json (.obj [("status", .str "healthy"), ("timestamp", .date now)])⟩
      ∧ ∀ (params : List (String × String)) (req : Request),
          ∃ r, runHandler .health params req now = .ok r ∧ r.status = 200 := by
  refine ⟨?_, fun params req => ⟨getHealth now, rfl, rfl⟩⟩
  simp [handle, route_get_health, runHandler, getHealth]

/-- The answer to GET /api/users. -/
theorem handle_get_users (body : JSValue) (now : ℤ) :
    handle ⟨"GET", "/api/users", body⟩ now
      = ⟨200, .json (.arr [
          .obj [("id", .num (.fin 1)), ("name", .str "John"), ("email", .str "john@example.com")],
          .obj [("id", .num (.fin 2)), ("name", .str "Jane"),
            ("email", .str "jane@example.com")]])⟩ := by
  simp [handle, route_get_users, runHandler, getUsers]

/-- Claim C4. Every GET /api/users request is answered 200 with the array of
the two fixed records, John with id 1 and then Jane with id 2. -/
theorem users_listing_fixed (body : JSValue) (now : ℤ) :
    handle ⟨"GET", "/api/users", body⟩ now
      = ⟨200, .json (.arr [
          .obj [("id", .num (.fin 1)), ("name", .str "John"), ("email", .str "john@example.com")],
          .obj [("id", .num (.fin 2)), ("name", .str "Jane"),
            ("email", .str "jane@example.com")]])⟩ := by
  simp [handle, route_get_users, runHandler, getUsers]


/-! ## User creation -/

/-- The answer to POST /api/users is the result of its handler. -/
theorem handle_post_users (body : JSValue) (now : ℤ) (r : Response)
    (h : postUsers body now = .ok r) :
    handle ⟨"POST", "/api/users", body⟩ now = r := by
  simp [handle, route_post_users, runHandler, h]

/-- The handler on a body object, by the truthiness of the two fields. -/
theorem postUsers_obj (props : List (String × JSValue)) (now : ℤ) :
    postUsers (.obj props) now
      = .ok (if ((props.lookup "name").getD .undefined).truthy
              ∧ ((props.lookup "email").getD .undefined).truthy then
          ⟨201, .json (.obj [("id", .num (.fin 3)),
            ("name", (props.lookup "name").getD .undefined),
            ("email", (props.lookup "email").getD .undefined), ("createdAt", .date now)])⟩
        else ⟨400, .json (.obj [("error", .str "Name and email required")])⟩) := by
  cases hn : ((props.lookup "name").getD .undefined).truthy <;>
    cases he : ((props.lookup "email").getD .undefined).truthy <;>
    simp [postUsers, JSValue.getProp, hn, he, bind, Except.bind, pure, Except.pure]

/-- Claim C1. A POST /api/users whose body holds a non-empty string `name` and
a non-empty string `email` is answered 201 with exactly the fields id = 3, the
name, the email and createdAt = `now`, the clock reading taken by the handler,
which is not earlier than the time the request was issued. -/
theorem create_user_echoes (props : List (String × JSValue)) (name email : String)
    (issued now : ℤ)
    (hname : props.lookup "name" = some (.str name)) (hn : name ≠ "")
    (hemail : props.lookup "email" = some (.str email)) (he : email ≠ "")
    (hclock : issued ≤ now) :
    ∃ created : ℤ, created = now ∧ issued ≤ created ∧
      handle ⟨"POST", "/api/users", .obj props⟩ now
        = ⟨201, .json (.obj [("id", .num (.fin 3)), ("name", .str name),
            ("email", .str email), ("createdAt", .date created)])⟩ := by
  refine ⟨now, rfl, hclock, handle_post_users _ _ _ ?_⟩
  rw [postUsers_obj]
  simp [hname, hemail, JSValue.truthy, hn, he]

/-- The body with name Bob and email bob@example.com, issued at 1700000000000
and handled at 1700000000007, is answered 201 with createdAt = 1700000000007. -/
theorem create_user_echoes_witness :
    ∃ created : ℤ, created = 1700000000007 ∧ (1700000000000 : ℤ) ≤ created ∧
      handle ⟨"POST", "/api/users",
          .obj [("name", .str "Bob"), ("email", .str "bob@example.com")]⟩ 1700000000007
        = ⟨201, .json (.obj [("id", .num (.fin 3)), ("name", .str "Bob"),
            ("email", .str "bob@example.com"), ("createdAt", .date created)])⟩ :=
  create_user_echoes [("name", .str "Bob"), ("email", .str "bob@example.com")]
    "Bob" "bob@example.com" 1700000000000 1700000000007 rfl (by decide) rfl (by decide)
    (by decide)

/-- Claim C2. A POST /api/users whose body lacks `name` or `email`, or holds
the empty string or null for either, is answered 400 with the body
`error: "Name and email required"`, whose error text is not empty and which
has none of the fields id, name, email and createdAt. -/
theorem create_user_rejects_missing (props : List (String × JSValue)) (now : ℤ)
    (h : props.lookup "name" = none ∨ props.lookup "name" = some (.str "")
        ∨ props.lookup "name" = some .null
        ∨ props.lookup "email" = none ∨ props.lookup "email" = some (.str "")
        ∨ props.lookup "email" = some .null) :
    handle ⟨"POST", "/api/users", .obj props⟩ now
        = ⟨400, .json (.obj [("error", .str "Name and email required")])⟩
      ∧ "Name and email required" ≠ ""
      ∧ ∀ key ∈ ["id", "name", "email", "createdAt"],
          List.lookup key [("error", JSValue.str "Name and email required")] = none := by
  refine ⟨handle_post_users _ _ _ ?_, by decide, ?_⟩
  · rw [postUsers_obj]
    rcases h with h | h | h | h | h | h <;> simp [h, JSValue.truthy]
  · intro key hk
    simp only [List.mem_cons, List.mem_singleton, List.not_mem_nil, or_false] at hk
    rcases hk with rfl | rfl | rfl | rfl <;> rfl

/-- The body with the name Invalid and no email is answered 400. -/
theorem create_user_rejects_missing_witness :
    handle ⟨"POST", "/api/users", .obj [("name", .str "Invalid")]⟩ 0
        = ⟨400, .json (.obj [("error", .str "Name and email required")])⟩
      ∧ "Name and email required" ≠ ""
      ∧ ∀ key ∈ ["id", "name", "email", "createdAt"],
          List.lookup key [("error", JSValue.str "Name and email required")] = none :=
  create_user_rejects_missing [("name", .str "Invalid")] 0
    (Or.inr (Or.inr (Or.inr (Or.inl rfl))))

/-- Claim C9. On every decoded body object the POST /api/users handler
returns, with status 400 exactly when `name` or `email` is falsy and status 201
otherwise, in which case both values are echoed unchanged. The falsy values are
undefined, null, false, both zeros, NaN and the empty string, so a body with
name 0 is rejected, as is a body that is an array, which has neither field;
every other value, of any type, is truthy. -/
theorem create_user_partitions_by_truthiness (props : List (String × JSValue)) (now : ℤ) :
    (∃ r, postUsers (.obj props) now = .ok r
        ∧ handle ⟨"POST", "/api/users", .obj props⟩ now = r
        ∧ (r.status = 400 ↔ ((props.lookup "name").getD .undefined).truthy = false
            ∨ ((props.lookup "email").getD .undefined).truthy = false)
        ∧ (r.status = 201 ↔ ((props.lookup "name").getD .undefined).truthy = true
            ∧ ((props.lookup "email").getD .undefined).truthy = true)
        ∧ (r.status = 201 → r.body = .json (.obj [("id", .num (.fin 3)),
            ("name", (props.lookup "name").getD .undefined),
            ("email", (props.lookup "email").getD .undefined), ("createdAt", .date now)])))
      ∧ (JSValue.undefined.truthy = false ∧ JSValue.null.truthy = false
        ∧ (JSValue.bool false).truthy = false ∧ (JSValue.num (.fin 0)).truthy = false
        ∧ (JSValue.num .negZero).truthy = false ∧ (JSValue.num .nan).truthy = false
        ∧ (JSValue.str "").truthy = false)
      ∧ handle ⟨"POST", "/api/users", .obj [("name", .num (.fin 0)), ("email", .str "x")]⟩ now
          = ⟨400, .json (.obj [("error", .str "Name and email required")])⟩
      ∧ (∀ items, handle ⟨"POST", "/api/users", .arr items⟩ now
          = ⟨400, .json (.obj [("error", .str "Name and email required")])⟩)
      ∧ ((∀ s : String, s ≠ "" → (JSValue.str s).truthy = true)
        ∧ (JSValue.str "  ").truthy = true
        ∧ (∀ q : ℚ, q ≠ 0 → (JSValue.num (.fin q)).truthy = true)
        ∧ (JSValue.num .posInf).truthy = true ∧ (JSValue.num .negInf).truthy = true
        ∧ (JSValue.bool true).truthy = true
        ∧ (∀ items, (JSValue.arr items).truthy = true)
        ∧ (∀ ps, (JSValue.obj ps).truthy = true)) := by
  refine ⟨⟨_, postUsers_obj props now, handle_post_users _ _ _ (postUsers_obj props now),
      ?_, ?_, ?_⟩, ?_, ?_, fun items => handle_post_users _ _ _ rfl, ?_⟩
  · cases hn : ((props.lookup "name").getD .undefined).truthy <;>
      cases he : ((props.lookup "email").getD .undefined).truthy <;> simp
  · cases hn : ((props.lookup "name").getD .undefined).truthy <;>
      cases he : ((props.lookup "email").getD .undefined).truthy <;> simp
  · cases hn : ((props.lookup "name").getD .undefined).truthy <;>
      cases he : ((props.lookup "email").getD .undefined).truthy <;> simp
  · simp [JSValue.truthy]
  · refine handle_post_users _ _ _ ?_
    rw [postUsers_obj]
    simp [JSValue.truthy]
  · simp [JSValue.truthy]


/-! ## parseInt on decimal numerals -/

theorem isDigit_iff (c : Char) : c.isDigit = true ↔ 48 ≤ c.toNat ∧ c.toNat ≤ 57 := by
  simp [Char.isDigit, Char.toNat, UInt32.le_def, Fin.le_def]
  rfl

theorem radixDigit_ten_of_digit (c : Char) (h : 48 ≤ c.toNat ∧ c.toNat ≤ 57) :
    radixDigit 10 c = some (c.toNat - 48) := by
  have : c.toNat - 48 < 10 := by omega
  simp [radixDigit, digitValue, h, Option.filter, this]

theorem radixDigit_ten_of_not_digit (c : Char) (h : ¬ (48 ≤ c.toNat ∧ c.toNat ≤ 57)) :
    radixDigit 10 c = none := by
  simp only [radixDigit, digitValue, h, if_false]
  split_ifs with h1 h2
  · have : ¬ (c.toNat - 87 < 10) := by omega
    simp [Option.filter, this]
  · have : ¬ (c.toNat - 55 < 10) := by omega
    simp [Option.filter, this]
  · rfl

theorem takeDigits_ten_append (ds rest : List Char)
    (hds : ∀ c ∈ ds, 48 ≤ c.toNat ∧ c.toNat ≤ 57)
    (hrest : ∀ c, rest.head? = some c → ¬ (48 ≤ c.toNat ∧ c.toNat ≤ 57)) :
    takeDigits 10 (ds ++ rest) = ds.map fun c => c.toNat - 48 := by
  induction ds with
  | nil =>
    cases rest with
    | nil => rfl
    | cons c cs => simp [takeDigits, radixDigit_ten_of_not_digit c (hrest c rfl)]
  | cons d ds ih =>
    have hd := hds d (List.mem_cons_self _ _)
    have ih' := ih fun c hc => hds c (List.mem_cons_of_mem _ hc)
    show takeDigits 10 (d :: (ds ++ rest)) = _
    simp only [takeDigits, radixDigit_ten_of_digit d hd, List.map_cons, ih']

theorem not_whiteSpace_of_digit (c : Char) (h : 48 ≤ c.toNat ∧ c.toNat ≤ 57) :
    isWhiteSpace c = false := by
  simp only [isWhiteSpace, Bool.or_eq_false_iff, decide_eq_false_iff_not, List.mem_cons,
    List.mem_singleton, List.not_mem_nil, Bool.and_eq_false_iff, or_false]
  omega

/-- Unfolding of `parseInt` along its steps. -/
theorem parseInt_steps (s : String) (t body : List Char) (R : ℕ) (Z : List ℕ)
    (ht : s.toList.dropWhile isWhiteSpace = t)
    (hsel : selectRadix (dropSign t) = (R, body)) (hZ : takeDigits R body = Z) :
    parseInt s
      = if Z = [] then .nan
        else if mathInt R Z = 0 then (if t.head? = some '-' then .negZero else .fin 0)
        else roundToDouble (if t.head? = some '-' then -(mathInt R Z : ℚ) else (mathInt R Z : ℚ)) := by
  simp only [parseInt, ht, hsel, hZ, decide_eq_true_eq]


/-- The value that `parseInt` gives to a text made of an optional sign, a
non-empty run of decimal digits that does not open a hexadecimal numeral, and
a rest that does not start with a digit. -/
theorem parseInt_signed_decimal (sign ds rest : List Char)
    (hsign : sign = [] ∨ sign = ['+'] ∨ sign = ['-'])
    (hne : ds ≠ [])
    (hds : ∀ c ∈ ds, 48 ≤ c.toNat ∧ c.toNat ≤ 57)
    (hrest : ∀ c, rest.head? = some c → ¬ (48 ≤ c.toNat ∧ c.toNat ≤ 57))
    (hhex : ¬ (ds = ['0'] ∧ (rest.head? = some 'x' ∨ rest.head? = some 'X'))) :
    parseInt (String.mk (sign ++ ds ++ rest))
      = if mathInt 10 (ds.map fun c => c.toNat - 48) = 0 then
          (if sign = ['-'] then .negZero else .fin 0)
        else roundToDouble (if sign = ['-'] then
          -(mathInt 10 (ds.map fun c => c.toNat - 48) : ℚ)
          else (mathInt 10 (ds.map fun c => c.toNat - 48) : ℚ)) := by
  obtain ⟨d, ds', rfl⟩ := List.exists_cons_of_ne_nil hne
  have hd := hds d (List.mem_cons_self _ _)
  have hdw := not_whiteSpace_of_digit d hd
  have hdplus : d ≠ '+' := by rintro rfl; revert hd; decide
  have hdminus : d ≠ '-' := by rintro rfl; revert hd; decide
  have hradix : selectRadix (d :: (ds' ++ rest)) = (10, d :: (ds' ++ rest)) := by
    cases hcs : ds' ++ rest with
    | nil => simp [selectRadix]
    | cons x cs =>
      have hx : ¬ (d = '0' ∧ (x = 'x' ∨ x = 'X')) := by
        rintro ⟨rfl, hx⟩
        cases ds' with
        | nil =>
          simp only [List.nil_append] at hcs
          exact hhex ⟨rfl, by simpa [hcs] using hx⟩
        | cons y ys =>
          simp only [List.cons_append, List.cons.injEq] at hcs
          have hy := hds y (by simp)
          rw [hcs.1] at hy
          rcases hx with rfl | rfl <;> revert hy <;> decide
      simp [selectRadix, hx]
  have htake : takeDigits 10 (d :: (ds' ++ rest)) = (d :: ds').map fun c => c.toNat - 48 :=
    takeDigits_ten_append (d :: ds') rest hds hrest
  rcases hsign with rfl | rfl | rfl
  · rw [parseInt_steps _ (d :: (ds' ++ rest)) _ 10 _ (by simp [List.dropWhile, hdw])
      (by simpa [dropSign, hdplus, hdminus] using hradix) htake]
    simp [hdminus]
  · rw [parseInt_steps _ ('+' :: d :: (ds' ++ rest)) _ 10 _
      (by simp [List.dropWhile, show isWhiteSpace '+' = false by decide])
      (by simpa [dropSign] using hradix) htake]
    simp
  · rw [parseInt_steps _ ('-' :: d :: (ds' ++ rest)) _ 10 _
      (by simp [List.dropWhile, show isWhiteSpace '-' = false by decide])
      (by simpa [dropSign] using hradix) htake]
    simp


theorem mathInt_append_singleton (R : ℕ) (ds : List ℕ) (d : ℕ) :
    mathInt R (ds ++ [d]) = mathInt R ds * R + d := by
  simp [mathInt, List.foldl_append]

theorem digitChar_toNat (d : ℕ) (h : d < 10) : (Nat.digitChar d).toNat = 48 + d := by
  interval_cases d <;> rfl

/-- The decimal numeral that `toString` writes for a natural number: digits
only, at least one, denoting the number. -/
theorem toDigitsCore_spec (fuel : ℕ) : ∀ (n : ℕ) (acc : List Char), n < fuel →
    ∃ pre, Nat.toDigitsCore 10 fuel n acc = pre ++ acc ∧ pre ≠ []
      ∧ (∀ c ∈ pre, 48 ≤ c.toNat ∧ c.toNat ≤ 57)
      ∧ mathInt 10 (pre.map fun c => c.toNat - 48) = n := by
  induction fuel with
  | zero => intro n acc h; omega
  | succ fuel ih =>
    intro n acc h
    have hlt : n % 10 < 10 := Nat.mod_lt _ (by norm_num)
    have hc := digitChar_toNat (n % 10) hlt
    by_cases h0 : n / 10 = 0
    · refine ⟨[Nat.digitChar (n % 10)], by simp [Nat.toDigitsCore, h0], by simp, ?_, ?_⟩
      · intro c hc'
        simp only [List.mem_singleton] at hc'
        subst hc'; omega
      · simp only [List.map_cons, List.map_nil, mathInt, List.foldl_cons, List.foldl_nil, hc]
        omega
    · obtain ⟨pre, hpre, -, hdig, hval⟩ :=
        ih (n / 10) (Nat.digitChar (n % 10) :: acc) (by omega)
      refine ⟨pre ++ [Nat.digitChar (n % 10)], by simp [Nat.toDigitsCore, h0, hpre], by simp,
        ?_, ?_⟩
      · intro c hc'
        rcases List.mem_append.mp hc' with hc' | hc'
        · exact hdig c hc'
        · simp only [List.mem_singleton] at hc'
          subst hc'; omega
      · rw [List.map_append, List.map_singleton, mathInt_append_singleton, hval, hc]
        omega

theorem toString_nat_spec (n : ℕ) :
    (toString n).toList ≠ [] ∧ (∀ c ∈ (toString n).toList, 48 ≤ c.toNat ∧ c.toNat ≤ 57)
      ∧ mathInt 10 ((toString n).toList.map fun c => c.toNat - 48) = n := by
  obtain ⟨pre, hpre, hne, hdig, hval⟩ := toDigitsCore_spec (n + 1) n [] (by omega)
  have : (toString n).toList = pre := by
    show (Nat.toDigits 10 n) = pre
    simpa [Nat.toDigits] using hpre
  rw [this]
  exact ⟨hne, hdig, hval⟩

/-- The value of `parseInt` on the decimal numeral of a natural number. -/
theorem parseInt_toString (n : ℕ) :
    parseInt (toString n) = if n = 0 then .fin 0 else roundToDouble (n : ℚ) := by
  obtain ⟨hne, hdig, hval⟩ := toString_nat_spec n
  have h := parseInt_signed_decimal [] (toString n).toList [] (Or.inl rfl) hne hdig
    (by simp) (by simp)
  simp only [List.nil_append, List.append_nil, hval] at h
  simpa using h


/-! ## Routing of the sum path -/

theorem splitSlash_of_no_slash (xs : List Char) (h : '/' ∉ xs) : splitSlash xs = [xs] := by
  induction xs with
  | nil => rfl
  | cons c cs ih =>
    have hc : c ≠ '/' := fun e => h (by simp [e])
    have hcs : '/' ∉ cs := fun e => h (List.mem_cons_of_mem _ e)
    simp [splitSlash, hc, ih hcs]

theorem splitSlash_append_slash (xs ys : List Char) (h : '/' ∉ xs) :
    splitSlash (xs ++ '/' :: ys) = xs :: splitSlash ys := by
  induction xs with
  | nil => simp [splitSlash]
  | cons c cs ih =>
    have hc : c ≠ '/' := fun e => h (by simp [e])
    have hcs : '/' ∉ cs := fun e => h (List.mem_cons_of_mem _ e)
    simp [splitSlash, hc, ih hcs]

theorem unescapeOctets_of_no_percent (xs : List Char) (h : '%' ∉ xs) :
    unescapeOctets xs = some (xs.map Sum.inl) := by
  induction xs with
  | nil => rfl
  | cons c cs ih =>
    have hc : c ≠ '%' := fun e => h (by simp [e])
    have hcs : '%' ∉ cs := fun e => h (List.mem_cons_of_mem _ e)
    have hstep : unescapeOctets (c :: cs)
        = (unescapeOctets cs).map fun tl => Sum.inl c :: tl := by
      rcases cs with _ | ⟨x, _ | ⟨y, rest⟩⟩ <;> simp [unescapeOctets, hc]
    rw [hstep, ih hcs]
    rfl

theorem decodeOctets_map_inl (xs : List Char) :
    decodeOctets (xs.map Sum.inl) = some xs := by
  induction xs with
  | nil => rfl
  | cons c cs ih =>
    have hstep : decodeOctets (Sum.inl c :: cs.map Sum.inl)
        = (decodeOctets (cs.map Sum.inl)).map fun tl => c :: tl := rfl
    rw [List.map_cons, hstep, ih]
    rfl

/-- A text without a percent sign decodes to itself. -/
theorem decodeURIComponent_of_no_percent (xs : List Char) (h : '%' ∉ xs) :
    decodeURIComponent xs = some xs := by
  simp [decodeURIComponent, unescapeOctets_of_no_percent xs h, decodeOctets_map_inl]

/-- A GET on `/api/sum/a/b`, where `a` and `b` are non-empty texts without
slash or percent sign, runs the sum handler on the parameters `a` and `b`. -/
theorem route_get_sum (a b : List Char) (ha : a ≠ []) (hb : b ≠ [])
    (hsa : '/' ∉ a) (hsb : '/' ∉ b) (hpa : '%' ∉ a) (hpb : '%' ∉ b) :
    route "GET" (String.mk ("/api/sum/".toList ++ a ++ '/' :: b))
      = .run .sum [("a", String.mk a), ("b", String.mk b)] := by
  have hsplit : splitSlash (String.mk ("/api/sum/".toList ++ a ++ '/' :: b)).toList
      = [[], ['a', 'p', 'i'], ['s', 'u', 'm'], a, b] := by
    have e : (String.mk ("/api/sum/".toList ++ a ++ '/' :: b)).toList
        = [] ++ '/' :: (['a', 'p', 'i'] ++ '/' :: (['s', 'u', 'm'] ++ '/' :: (a ++ '/' :: b))) := by
      simp
    rw [e, splitSlash_append_slash _ _ (by simp), splitSlash_append_slash _ _ (by decide),
      splitSlash_append_slash _ _ (by decide), splitSlash_append_slash _ _ hsa,
      splitSlash_of_no_slash _ hsb]
  have h1 : matchLayer ⟨"get", "/health", .health⟩
      (String.mk ("/api/sum/".toList ++ a ++ '/' :: b)) = .noMatch := by
    simp only [matchLayer, matchPath, hsplit]
    rfl
  have h2 : matchLayer ⟨"get", "/api/users", .listUsers⟩
      (String.mk ("/api/sum/".toList ++ a ++ '/' :: b)) = .noMatch := by
    simp only [matchLayer, matchPath, hsplit]
    rfl
  have h3 : matchLayer ⟨"post", "/api/users", .createUser⟩
      (String.mk ("/api/sum/".toList ++ a ++ '/' :: b)) = .noMatch := by
    simp only [matchLayer, matchPath, hsplit]
    rfl
  have hc : compilePath "/api/sum/:a/:b"
      = [.lit ['a', 'p', 'i'], .lit ['s', 'u', 'm'], .param "a", .param "b"] := rfl
  have h4 : matchLayer ⟨"get", "/api/sum/:a/:b", .sum⟩
      (String.mk ("/api/sum/".toList ++ a ++ '/' :: b))
        = .matched [("a", String.mk a), ("b", String.mk b)] := by
    simp only [matchLayer, matchPath, hsplit, hc]
    simp [matchSegs, ha, hb, decodeParams, decodeURIComponent_of_no_percent, hpa, hpb]
  simp only [route, routes, dispatch, h1, h2, h3, h4]
  rfl


/-! ## The sum route -/

/-- The answer to a GET that the router gives to the sum handler. -/
theorem handle_get_sum (path : String) (params : List (String × String)) (body : JSValue)
    (now : ℤ) (h : route "GET" path = .run .sum params) :
    handle ⟨"GET", path, body⟩ now
      = getSum (paramText params "a") (paramText params "b") := by
  simp [handle, h, runHandler]

theorem paramText_a (x y : String) : paramText [("a", x), ("b", y)] "a" = x := rfl

theorem paramText_b (x y : String) : paramText [("a", x), ("b", y)] "b" = y := rfl

theorem not_mem_of_digits (ds : List Char) (c : Char)
    (hds : ∀ d ∈ ds, 48 ≤ d.toNat ∧ d.toNat ≤ 57) (hc : ¬ (48 ≤ c.toNat ∧ c.toNat ≤ 57)) :
    c ∉ ds :=
  fun h => hc (hds c h)

/-- A GET on the path written with the decimal numerals of two naturals runs
the sum handler on these numerals. -/
theorem route_get_sum_nat (a b : ℕ) :
    route "GET" ("/api/sum/" ++ toString a ++ "/" ++ toString b)
      = .run .sum [("a", toString a), ("b", toString b)] := by
  obtain ⟨hane, hadig, -⟩ := toString_nat_spec a
  obtain ⟨hbne, hbdig, -⟩ := toString_nat_spec b
  have hpath : "/api/sum/" ++ toString a ++ "/" ++ toString b
      = String.mk ("/api/sum/".toList ++ (toString a).toList ++ '/' :: (toString b).toList) := by
    apply String.ext
    simp [String.data_append]
  rw [hpath, route_get_sum _ _ hane hbne (not_mem_of_digits _ _ hadig (by decide))
    (not_mem_of_digits _ _ hbdig (by decide)) (not_mem_of_digits _ _ hadig (by decide))
    (not_mem_of_digits _ _ hbdig (by decide))]
  rfl

/-- The sum handler on the numerals of two naturals whose sum is at most 2^53. -/
theorem getSum_nat (a b : ℕ) (h : a + b ≤ 2 ^ 53) :
    getSum (toString a) (toString b)
      = ⟨200, .json (.obj [("a", .num (.fin a)), ("b", .num (.fin b)),
          ("sum", .num (.fin ((a + b : ℕ) : ℚ)))])⟩ := by
  have hround : ∀ n : ℕ, n ≤ 2 ^ 53 → parseInt (toString n) = .fin n := by
    intro n hn
    rw [parseInt_toString]
    split_ifs with h0
    · simp [h0]
    · have := roundToDouble_intCast (n : ℤ) (by rw [abs_of_nonneg (by positivity)]; exact_mod_cast hn)
      simpa using this
  have hsum : (JSNumber.fin a).add (.fin b) = .fin ((a + b : ℕ) : ℚ) := by
    simp only [JSNumber.add]
    split_ifs with h0
    · rw [← Nat.cast_add] at h0; rw [h0]
    · have := roundToDouble_intCast ((a + b : ℕ) : ℤ)
        (by rw [abs_of_nonneg (by positivity)]; exact_mod_cast h)
      simpa using this
  simp only [getSum, hround a (by omega), hround b (by omega), hsum]

/-- Claim C3, as amended. For all naturals a and b with a + b at most 2^53,
the GET on /api/sum/a/b, with a and b written in decimal, is answered 200 with
the body a, b, sum = a + b; /api/sum/5/3 gives a = 5, b = 3, sum = 8. -/
theorem sum_exact_up_to_two_pow_53 (a b : ℕ) (h : a + b ≤ 2 ^ 53) (body : JSValue) (now : ℤ) :
    handle ⟨"GET", "/api/sum/" ++ toString a ++ "/" ++ toString b, body⟩ now
      = ⟨200, .json (.obj [("a", .num (.fin a)), ("b", .num (.fin b)),
          ("sum", .num (.fin ((a + b : ℕ) : ℚ)))])⟩ := by
  rw [handle_get_sum _ _ _ _ (route_get_sum_nat a b), paramText_a, paramText_b, getSum_nat a b h]

/-- The request GET /api/sum/5/3 is answered with a = 5, b = 3, sum = 8. -/
theorem sum_exact_up_to_two_pow_53_witness :
    5 + 3 ≤ 2 ^ 53 ∧
      handle ⟨"GET", "/api/sum/5/3", .obj []⟩ 0
        = ⟨200, .json (.obj [("a", .num (.fin 5)), ("b", .num (.fin 3)),
            ("sum", .num (.fin 8))])⟩ :=
  ⟨by norm_num, by simpa using sum_exact_up_to_two_pow_53 5 3 (by norm_num) (.obj []) 0⟩

/-- Counterexample to claim C3 as stated: on /api/sum/9007199254740992/1 the
field `sum` is 9007199254740992, which is not 9007199254740992 + 1. -/
theorem sum_inexact_above_two_pow_53 :
    handle ⟨"GET", "/api/sum/9007199254740992/1", .obj []⟩ 0
        = ⟨200, .json (.obj [("a", .num (.fin 9007199254740992)), ("b", .num (.fin 1)),
            ("sum", .num (.fin 9007199254740992))])⟩
      ∧ (9007199254740992 : ℚ) ≠ 9007199254740992 + 1 := by
  refine ⟨?_, by norm_num⟩
  have hr : route "GET" "/api/sum/9007199254740992/1"
      = .run .sum [("a", "9007199254740992"), ("b", "1")] := rfl
  have ha : parseInt "9007199254740992" = .fin 9007199254740992 := by
    have := parseInt_toString 9007199254740992
    rw [if_neg (by norm_num)] at this
    rw [show (toString 9007199254740992 : String) = "9007199254740992" from rfl] at this
    rw [this]
    simpa using roundToDouble_two_pow_53
  have hb : parseInt "1" = .fin 1 := by
    have := parseInt_toString 1
    rw [if_neg (by norm_num)] at this
    rw [show (toString 1 : String) = "1" from rfl] at this
    rw [this]
    simpa using roundToDouble_intCast 1 (by norm_num)
  have hadd : (JSNumber.fin 9007199254740992).add (.fin 1) = .fin 9007199254740992 := by
    simp only [JSNumber.add]
    rw [if_neg (by norm_num)]
    norm_num
    exact roundToDouble_two_pow_53_succ
  rw [handle_get_sum _ _ _ _ hr, paramText_a, paramText_b]
  simp only [getSum, ha, hb, hadd]


/-- The value of `parseInt` is NaN on a text that, after its leading white
space and one sign, does not start with a decimal digit. -/
theorem parseInt_nan_of_no_digit (s : String)
    (h : ∀ c ∈ (dropSign (s.toList.dropWhile isWhiteSpace)).head?, c.isDigit = false) :
    parseInt s = .nan := by
  have hsel : selectRadix (dropSign (s.toList.dropWhile isWhiteSpace))
      = (10, dropSign (s.toList.dropWhile isWhiteSpace)) := by
    rcases ht : dropSign (s.toList.dropWhile isWhiteSpace) with _ | ⟨c, _ | ⟨x, cs⟩⟩
    · rfl
    · rfl
    · have hc : c ≠ '0' := by
        rintro rfl
        have := h '0' (Option.mem_def.mpr (by rw [ht]; rfl))
        revert this; decide
      simp [selectRadix, hc]
  have hZ : takeDigits 10 (dropSign (s.toList.dropWhile isWhiteSpace)) = [] := by
    rcases ht : dropSign (s.toList.dropWhile isWhiteSpace) with _ | ⟨c, cs⟩
    · rfl
    · have hc : ¬ (48 ≤ c.toNat ∧ c.toNat ≤ 57) := by
        rw [← isDigit_iff]
        simp [h c (Option.mem_def.mpr (by rw [ht]; rfl))]
      simp [takeDigits, radixDigit_ten_of_not_digit c hc]
  rw [parseInt_steps s _ _ 10 [] rfl hsel hZ]
  simp

/-- Claim C8. A GET that the router gives to the sum handler and in which a
parameter is not numeric (after its leading white space and one sign it does
not start with a decimal digit) is not rejected: the status is 200, the field
of that parameter is NaN, which is serialized as null, and the field `sum` is
NaN as well. -/
theorem sum_non_numeric_gives_nan (path : String) (params : List (String × String))
    (body : JSValue) (now : ℤ)
    (hroute : route "GET" path = .run .sum params)
    (h : (∀ c ∈ (dropSign ((paramText params "a").toList.dropWhile isWhiteSpace)).head?,
          c.isDigit = false)
      ∨ (∀ c ∈ (dropSign ((paramText params "b").toList.dropWhile isWhiteSpace)).head?,
          c.isDigit = false)) :
    handle ⟨"GET", path, body⟩ now
        = ⟨200, .json (.obj [("a", .num (parseInt (paramText params "a"))),
            ("b", .num (parseInt (paramText params "b"))), ("sum", .num .nan)])⟩
      ∧ ((∀ c ∈ (dropSign ((paramText params "a").toList.dropWhile isWhiteSpace)).head?,
            c.isDigit = false) → parseInt (paramText params "a") = .nan)
      ∧ ((∀ c ∈ (dropSign ((paramText params "b").toList.dropWhile isWhiteSpace)).head?,
            c.isDigit = false) → parseInt (paramText params "b") = .nan)
      ∧ JSNumber.nan.toJSON = none := by
  refine ⟨?_, parseInt_nan_of_no_digit _, parseInt_nan_of_no_digit _, rfl⟩
  rw [handle_get_sum _ _ _ _ hroute]
  have hsum : (parseInt (paramText params "a")).add (parseInt (paramText params "b"))
      = .nan := by
    rcases h with h | h
    · rw [parseInt_nan_of_no_digit _ h]
      cases parseInt (paramText params "b") <;> rfl
    · rw [parseInt_nan_of_no_digit _ h]
      cases parseInt (paramText params "a") <;> rfl
  simp only [getSum, hsum]

/-- The request GET /api/sum/abc/1 is answered 200 with a = NaN and sum = NaN. -/
theorem sum_non_numeric_gives_nan_witness :
    route "GET" "/api/sum/abc/1" = .run .sum [("a", "abc"), ("b", "1")]
      ∧ handle ⟨"GET", "/api/sum/abc/1", .obj []⟩ 0
        = ⟨200, .json (.obj [("a", .num (parseInt "abc")), ("b", .num (parseInt "1")),
            ("sum", .num .nan)])⟩
      ∧ parseInt "abc" = .nan :=
  have h : ∀ c ∈ (dropSign ("abc".toList.dropWhile isWhiteSpace)).head?, c.isDigit = false := by
    decide
  have w := sum_non_numeric_gives_nan "/api/sum/abc/1" [("a", "abc"), ("b", "1")] (.obj []) 0
    rfl (Or.inl h)
  ⟨rfl, w.1, w.2.1 h⟩

/-- The integer that `parseInt` accumulates from a list of decimal digits is
the one that the list, read from its last digit, denotes in base ten. -/
theorem mathInt_eq_ofDigits (ds : List ℕ) : mathInt 10 ds = Nat.ofDigits 10 ds.reverse := by
  induction ds using List.reverseRecOn with
  | nil => rfl
  | append_singleton ds d ih =>
    rw [mathInt_append_singleton, ih, List.reverse_append, List.reverse_singleton,
      List.singleton_append, Nat.ofDigits_cons]
    ring

/-- The Number that `parseInt` gives to a text made of an optional sign, a
non-empty run of decimal digits that does not open a hexadecimal numeral and
denotes at most 2^53, and a rest that does not start with a digit: the signed
integer `z` that the sign and the digits denote, negative zero standing for
the integer 0 after a minus sign. -/
theorem parseInt_signed_value (sign ds rest : List Char) (z : ℤ)
    (hsign : sign = [] ∨ sign = ['+'] ∨ sign = ['-'])
    (hne : ds ≠ [])
    (hds : ∀ c ∈ ds, c.isDigit = true)
    (hrest : ∀ c ∈ rest.head?, c.isDigit = false)
    (hhex : ¬ ['0', 'x'] <+: ds ++ rest ∧ ¬ ['0', 'X'] <+: ds ++ rest)
    (hz : z = if sign = ['-'] then
        -((Nat.ofDigits 10 ((ds.map fun c => c.toNat - 48).reverse) : ℕ) : ℤ)
      else ((Nat.ofDigits 10 ((ds.map fun c => c.toNat - 48).reverse) : ℕ) : ℤ))
    (hbound : |z| ≤ 2 ^ 53) :
    parseInt (String.mk (sign ++ ds ++ rest)) = .fin z
      ∨ (parseInt (String.mk (sign ++ ds ++ rest)) = .negZero ∧ z = 0) := by
  have hds' : ∀ c ∈ ds, 48 ≤ c.toNat ∧ c.toNat ≤ 57 := fun c hc => (isDigit_iff c).mp (hds c hc)
  have hrest' : ∀ c, rest.head? = some c → ¬ (48 ≤ c.toNat ∧ c.toNat ≤ 57) := by
    intro c hc hdig
    have := hrest c (Option.mem_def.mpr hc)
    rw [(isDigit_iff c).mpr hdig] at this
    exact absurd this (by decide)
  have hhex' : ¬ (ds = ['0'] ∧ (rest.head? = some 'x' ∨ rest.head? = some 'X')) := by
    rintro ⟨rfl, hx⟩
    cases rest with
    | nil => simp at hx
    | cons r rs =>
      simp only [List.head?_cons, Option.some.injEq] at hx
      rcases hx with rfl | rfl
      · exact hhex.1 ⟨rs, rfl⟩
      · exact hhex.2 ⟨rs, rfl⟩
  rw [parseInt_signed_decimal sign ds rest hsign hne hds' hrest' hhex', mathInt_eq_ofDigits]
  generalize Nat.ofDigits 10 ((ds.map fun c => c.toNat - 48).reverse) = n at hz ⊢
  by_cases h0 : n = 0
  · subst h0
    have hz0 : z = 0 := by rw [hz]; split_ifs <;> simp
    subst hz0
    by_cases hs : sign = ['-']
    · right; simp [hs]
    · left; simp [hs]
  · left
    rw [if_neg h0]
    have hr := roundToDouble_intCast z hbound
    by_cases hs : sign = ['-']
    · rw [if_pos hs] at hz ⊢
      rw [← hr, hz]; push_cast; rfl
    · rw [if_neg hs] at hz ⊢
      rw [← hr, hz]; push_cast; rfl

/-- The sum of two Numbers that hold integers is exact when it is at most 2^53
in absolute value. -/
theorem add_integers (A B : JSNumber) (x y : ℤ)
    (hA : A = .fin x ∨ (A = .negZero ∧ x = 0)) (hB : B = .fin y ∨ (B = .negZero ∧ y = 0))
    (h : |x + y| ≤ 2 ^ 53) : (A.add B).toRat? = some ((x + y : ℤ) : ℚ) := by
  rcases hA with rfl | ⟨rfl, rfl⟩ <;> rcases hB with rfl | ⟨rfl, rfl⟩
  · simp only [JSNumber.add]
    split_ifs with h0
    · have : ((x + y : ℤ) : ℚ) = 0 := by push_cast; exact h0
      simp [JSNumber.toRat?, this]
    · have hr := roundToDouble_intCast (x + y) h
      rw [show ((x : ℚ) + (y : ℚ)) = ((x + y : ℤ) : ℚ) by push_cast; rfl, hr]
      rfl
  · simp [JSNumber.add, JSNumber.toRat?]
  · simp [JSNumber.add, JSNumber.toRat?]
  · simp [JSNumber.add, JSNumber.toRat?]

/-- The value of a Number that holds an integer. -/
theorem toRat_of_integer (A : JSNumber) (x : ℤ) (hA : A = .fin x ∨ (A = .negZero ∧ x = 0)) :
    A.toRat? = some (x : ℚ) := by
  rcases hA with rfl | ⟨rfl, rfl⟩ <;> simp [JSNumber.toRat?]

/-- Claim C10, as amended. The sum route parses each parameter leniently and
with a sign. For every GET that the router gives to the sum handler with
parameters `a` and `b` that each consist of an optional sign, one or more
decimal digits (the whole leading run of digits, not opening a `0x` numeral,
and denoting at most 2^53) and then any text, the answer is 200 with the
fields a and b holding the signed integers that the sign and the digits
denote, and the field sum holding their sum when this is at most 2^53 in
absolute value. A path segment without a percent sign is its own parameter
(a percent escape is decoded before the parameter is parsed). The request
with the parameters 12abc and -5 is answered 200 with a = 12, b = -5, sum = 7,
and the handler answers 200 on all parameters. -/
theorem parseInt_lenient_signed (path : String) (params : List (String × String))
    (body : JSValue) (now : ℤ) (signA dsA restA signB dsB restB : List Char) (a b : ℤ)
    (hroute : route "GET" path = .run .sum params)
    (hpa : paramText params "a" = String.mk (signA ++ dsA ++ restA))
    (hpb : paramText params "b" = String.mk (signB ++ dsB ++ restB))
    (hsignA : signA = [] ∨ signA = ['+'] ∨ signA = ['-'])
    (hsignB : signB = [] ∨ signB = ['+'] ∨ signB = ['-'])
    (hneA : dsA ≠ []) (hneB : dsB ≠ [])
    (hdsA : ∀ c ∈ dsA, c.isDigit = true) (hdsB : ∀ c ∈ dsB, c.isDigit = true)
    (hrestA : ∀ c ∈ restA.head?, c.isDigit = false)
    (hrestB : ∀ c ∈ restB.head?, c.isDigit = false)
    (hhexA : ¬ ['0', 'x'] <+: dsA ++ restA ∧ ¬ ['0', 'X'] <+: dsA ++ restA)
    (hhexB : ¬ ['0', 'x'] <+: dsB ++ restB ∧ ¬ ['0', 'X'] <+: dsB ++ restB)
    (ha : a = if signA = ['-'] then
        -((Nat.ofDigits 10 ((dsA.map fun c => c.toNat - 48).reverse) : ℕ) : ℤ)
      else ((Nat.ofDigits 10 ((dsA.map fun c => c.toNat - 48).reverse) : ℕ) : ℤ))
    (hb : b = if signB = ['-'] then
        -((Nat.ofDigits 10 ((dsB.map fun c => c.toNat - 48).reverse) : ℕ) : ℤ)
      else ((Nat.ofDigits 10 ((dsB.map fun c => c.toNat - 48).reverse) : ℕ) : ℤ))
    (hboundA : |a| ≤ 2 ^ 53) (hboundB : |b| ≤ 2 ^ 53) :
    (∃ va vb vs, handle ⟨"GET", path, body⟩ now
          = ⟨200, .json (.obj [("a", .num va), ("b", .num vb), ("sum", .num vs)])⟩
        ∧ va.toRat? = some (a : ℚ) ∧ vb.toRat? = some (b : ℚ)
        ∧ (|a + b| ≤ 2 ^ 53 → vs.toRat? = some ((a + b : ℤ) : ℚ)))
      ∧ (∀ segA segB : List Char, segA ≠ [] → segB ≠ [] → '/' ∉ segA → '/' ∉ segB →
          '%' ∉ segA → '%' ∉ segB →
          route "GET" (String.mk ("/api/sum/".toList ++ segA ++ '/' :: segB))
            = .run .sum [("a", String.mk segA), ("b", String.mk segB)])
      ∧ (∀ (body' : JSValue) (now' : ℤ), handle ⟨"GET", "/api/sum/12abc/-5", body'⟩ now'
          = ⟨200, .json (.obj [("a", .num (.fin 12)), ("b", .num (.fin (-5))),
              ("sum", .num (.fin 7))])⟩)
      ∧ (∀ pa pb : String, (getSum pa pb).status = 200)
      ∧ (∀ (path' : String) (params' : List (String × String)) (body' : JSValue) (now' : ℤ),
          route "GET" path' = .run .sum params' →
          (handle ⟨"GET", path', body'⟩ now').status = 200) := by
  have hA := parseInt_signed_value signA dsA restA a hsignA hneA hdsA hrestA hhexA ha hboundA
  have hB := parseInt_signed_value signB dsB restB b hsignB hneB hdsB hrestB hhexB hb hboundB
  refine ⟨⟨parseInt (paramText params "a"), parseInt (paramText params "b"),
      (parseInt (paramText params "a")).add (parseInt (paramText params "b")), ?_, ?_, ?_, ?_⟩,
    fun segA segB h1 h2 h3 h4 h5 h6 => route_get_sum segA segB h1 h2 h3 h4 h5 h6, ?_,
    fun _ _ => rfl, ?_⟩
  · rw [handle_get_sum _ _ _ _ hroute]
    rfl
  · rw [hpa]; exact toRat_of_integer _ _ hA
  · rw [hpb]; exact toRat_of_integer _ _ hB
  · intro hsum
    rw [hpa, hpb]
    exact add_integers _ _ a b hA hB hsum
  · intro body' now'
    have hr : route "GET" "/api/sum/12abc/-5" = .run .sum [("a", "12abc"), ("b", "-5")] := rfl
    have h12 : parseInt "12abc" = .fin 12 := by
      have := parseInt_signed_decimal [] ['1', '2'] ['a', 'b', 'c'] (Or.inl rfl) (by decide)
        (by decide) (by simp) (by decide)
      rw [show String.mk ([] ++ ['1', '2'] ++ ['a', 'b', 'c']) = "12abc" from rfl] at this
      rw [this]
      have h12 : mathInt 10 (['1', '2'].map fun c => c.toNat - 48) = 12 := by decide
      rw [h12]
      simpa using roundToDouble_intCast 12 (by norm_num)
    have h5 : parseInt "-5" = .fin (-5) := by
      have := parseInt_signed_decimal ['-'] ['5'] [] (Or.inr (Or.inr rfl)) (by decide)
        (by decide) (by simp) (by decide)
      rw [show String.mk (['-'] ++ ['5'] ++ []) = "-5" from rfl] at this
      rw [this]
      have h5 : mathInt 10 (['5'].map fun c => c.toNat - 48) = 5 := by decide
      rw [h5]
      simpa using roundToDouble_intCast (-5) (by norm_num)
    have hadd : (JSNumber.fin 12).add (.fin (-5)) = .fin 7 := by
      simp only [JSNumber.add]
      rw [if_neg (by norm_num)]
      norm_num
      simpa using roundToDouble_intCast 7 (by norm_num)
    rw [handle_get_sum _ _ _ _ hr, paramText_a, paramText_b]
    simp only [getSum, h12, h5, hadd]
  · intro path' params' body' now' hroute'
    rw [handle_get_sum _ _ _ _ hroute']
    rfl

/-- The request with the parameters 12abc and -5 meets the conditions, with
a = 12, b = -5 and sum = 7. -/
theorem parseInt_lenient_signed_witness :
    ∃ va vb vs, handle ⟨"GET", "/api/sum/12abc/-5", .obj []⟩ 0
        = ⟨200, .json (.obj [("a", .num va), ("b", .num vb), ("sum", .num vs)])⟩
      ∧ va.toRat? = some (12 : ℚ) ∧ vb.toRat? = some (-5 : ℚ)
      ∧ vs.toRat? = some (7 : ℚ) := by
  obtain ⟨va, vb, vs, h, hva, hvb, hvs⟩ :=
    (parseInt_lenient_signed "/api/sum/12abc/-5" [("a", "12abc"), ("b", "-5")] (.obj []) 0
      [] ['1', '2'] ['a', 'b', 'c'] ['-'] ['5'] [] 12 (-5) rfl rfl rfl (Or.inl rfl)
      (Or.inr (Or.inr rfl)) (by decide) (by decide) (by decide) (by decide) (by decide)
      (by decide) (by decide) (by decide) (by decide) (by decide) (by norm_num)
      (by norm_num)).1
  exact ⟨va, vb, vs, h, by simpa using hva, by simpa using hvb,
    by simpa using hvs (by norm_num)⟩

/-- Counterexample to claim C10 as stated: the parameter 9007199254740993 is
made of decimal digits only, and it parses to 9007199254740992; and the
segment 1%32, a digit followed by text, reaches the handler as the parameter
12 and gives a = 12. -/
theorem parseInt_rounds_long_numeral :
    parseInt "9007199254740993" = .fin 9007199254740992
      ∧ (parseInt "9007199254740993").toRat? ≠ some 9007199254740993
      ∧ handle ⟨"GET", "/api/sum/1%32/0", .obj []⟩ 0
        = ⟨200, .json (.obj [("a", .num (.fin 12)), ("b", .num (.fin 0)),
            ("sum", .num (.fin 12))])⟩ := by
  have h : parseInt "9007199254740993" = .fin 9007199254740992 := by
    have := parseInt_toString 9007199254740993
    rw [if_neg (by norm_num)] at this
    rw [show (toString 9007199254740993 : String) = "9007199254740993" from rfl] at this
    rw [this]
    simpa using roundToDouble_two_pow_53_succ
  refine ⟨h, ?_, ?_⟩
  · rw [h]
    simp [JSNumber.toRat?]
  · have hr : route "GET" "/api/sum/1%32/0" = .run .sum [("a", "12"), ("b", "0")] := rfl
    have h12 : parseInt "12" = .fin 12 := by
      have := parseInt_toString 12
      rw [if_neg (by norm_num)] at this
      rw [show (toString 12 : String) = "12" from rfl] at this
      rw [this]
      simpa using roundToDouble_intCast 12 (by norm_num)
    have h0 : parseInt "0" = .fin 0 := by
      have := parseInt_toString 0
      rw [if_pos rfl] at this
      exact this
    have hadd : (JSNumber.fin 12).add (.fin 0) = .fin 12 := by
      simp only [JSNumber.add]
      rw [if_neg (by norm_num)]
      norm_num
      simpa using roundToDouble_intCast 12 (by norm_num)
    rw [handle_get_sum _ _ _ _ hr, paramText_a, paramText_b]
    simp only [getSum, h12, h0, hadd]

/-! ## Requests do not see earlier requests -/

/-- The destructuring of the body of a request into `name` and `email`. -/
theorem destructure_name_email (v : JSValue) :
    destructure v ["name", "email"]
      = match v.getProp "name", v.getProp "email" with
        | .ok x, .ok y => .ok [("name", x), ("email", y)]
        | _, _ => .error .typeError := by
  cases v <;> rfl

/-- The body of the POST handler does what `postUsers` does, and leaves the
bindings of the module as they are. -/
theorem exec_createUser (bindings : List (String × JSValue)) (req : Request)
    (params : List (String × String)) (now : ℤ) :
    Handler.createUser.body.exec ⟨bindings, [], req, params, now⟩
      = (bindings, (postUsers req.body now).mapError faultOf) := by
  have key : ∀ x y : JSValue,
      (Stmt.ifReturn (.or (.not (.ident "name")) (.not (.ident "email"))) 400
          (.object (.cons "error" (.str "Name and email required") .nil))
        (.json 201 (.object (.cons "id" (.num 3) (.cons "name" (.ident "name")
          (.cons "email" (.ident "email") (.cons "createdAt" .newDate .nil))))))).exec
        ⟨bindings, [("name", x), ("email", y)], req, params, now⟩
        = (bindings, .ok (if !x.truthy || !y.truthy then
            ⟨400, .json (.obj [("error", .str "Name and email required")])⟩
          else ⟨201, .json (.obj [("id", .num (.fin 3)), ("name", x), ("email", y),
            ("createdAt", .date now)])⟩)) := by
    intro x y
    have tb : ∀ b : Bool, (JSValue.bool b).truthy = b := fun _ => rfl
    cases hx : x.truthy <;> cases hy : y.truthy <;>
      simp [Stmt.exec, Expr.eval, Fields.eval, List.lookup, hx, hy, tb]
  have post : ∀ x y : JSValue, req.body.getProp "name" = .ok x →
      req.body.getProp "email" = .ok y →
      postUsers req.body now = .ok (if !x.truthy || !y.truthy then
          ⟨400, .json (.obj [("error", .str "Name and email required")])⟩
        else ⟨201, .json (.obj [("id", .num (.fin 3)), ("name", x), ("email", y),
          ("createdAt", .date now)])⟩) := by
    intro x y hx hy
    cases hxt : x.truthy <;> cases hyt : y.truthy <;>
      simp [postUsers, hx, hy, hxt, hyt, bind, Except.bind, pure, Except.pure]
  show (match Expr.reqBody.eval ⟨bindings, [], req, params, now⟩ with
    | .ok v =>
      match destructure v ["name", "email"] with
      | .ok consts => Stmt.exec _ { (⟨bindings, [], req, params, now⟩ : Scope) with
          locals := consts ++ [] }
      | .error f => (bindings, .error f)
    | .error f => (bindings, .error f)) = _
  simp only [Expr.eval, destructure_name_email]
  cases hn : req.body.getProp "name" with
  | error e =>
    have : postUsers req.body now = .error e := by
      simp [postUsers, hn, bind, Except.bind]
    cases e
    simp [this, Except.mapError, faultOf]
  | ok x =>
    cases he : req.body.getProp "email" with
    | error e =>
      have : postUsers req.body now = .error e := by
        simp [postUsers, hn, he, bind, Except.bind]
      cases e
      simp [this, Except.mapError, faultOf]
    | ok y =>
      simp only [List.append_nil]
      rw [key x y, post x y hn he]
      rfl

/-- The body of the sum handler does what `getSum` does, and leaves the
bindings of the module as they are. -/
theorem exec_sum (bindings : List (String × JSValue)) (req : Request)
    (params : List (String × String)) (now : ℤ) :
    Handler.sum.body.exec ⟨bindings, [], req, params, now⟩
      = (bindings, .ok (getSum (paramText params "a") (paramText params "b"))) := by
  have hp : ∀ key, (Expr.parseInt (.reqParam key)).eval ⟨bindings, [], req, params, now⟩
      = .ok (.num (parseInt (paramText params key))) := by
    intro key
    simp only [Expr.eval, paramText]
    cases params.lookup key <;> rfl
  have hq : ∀ (locals : List (String × JSValue)) key,
      (Expr.parseInt (.reqParam key)).eval ⟨bindings, locals, req, params, now⟩
      = .ok (.num (parseInt (paramText params key))) := by
    intro locals key
    simp only [Expr.eval, paramText]
    cases params.lookup key <;> rfl
  simp only [Handler.body, Stmt.exec, hq]
  simp [Expr.eval, Fields.eval, List.lookup, getSum]

/-- The body of each handler does what the handler does as a function of the
request, and leaves the bindings of the module as they are. -/
theorem exec_body (h : Handler) (bindings : List (String × JSValue)) (req : Request)
    (params : List (String × String)) (now : ℤ) :
    h.body.exec ⟨bindings, [], req, params, now⟩
      = (bindings, (runHandler h params req now).mapError faultOf) := by
  cases h
  · rfl
  · rfl
  · exact exec_createUser bindings req params now
  · exact exec_sum bindings req params now

/-- One request leaves the state of the process as it is, and its answer does
not depend on that state. -/
theorem step_eq (s : Server) (req : Request) (now : ℤ) :
    s.step req now = some (s, handle req now) := by
  unfold Server.step handle
  cases hr : route req.method req.path with
  | run h params =>
    simp only [exec_body]
    cases hh : runHandler h params req now with
    | error e => cases e; rfl
    | ok r => rfl
  | badParam => rfl
  | options allow => rfl
  | notFound => rfl

/-- A sequence of requests leaves the state of the process as it is. -/
theorem run_eq (s : Server) (history : List (Request × ℤ)) : s.run history = some s := by
  induction history with
  | nil => rfl
  | cons p rest ih =>
    obtain ⟨req, now⟩ := p
    simp only [Server.run, step_eq, ih]

/-- Claim C7. No handler writes or reads a binding of the module, so a sequence
of requests leaves the state of the process as it is, and the answer to a
request handled at clock reading `now` after any sequence of earlier requests
is the answer to the same request, at the same clock reading, with no earlier
request, whatever the bindings at the start; in particular the listing that a
GET /api/users returns after any sequence of requests holds the two fixed
records and no record with the fields of a created user. -/
theorem responses_ignore_history (s : Server) (history : List (Request × ℤ)) (req : Request)
    (now : ℤ) :
    s.run history = some s
      ∧ (∃ r, s.answerAfter history req now = some r ∧ s.answerAfter [] req now = some r
          ∧ Server.start.answerAfter history req now = some r
          ∧ Server.start.answerAfter [] req now = some r)
      ∧ ∀ (body name email : JSValue) (created : ℤ),
          ∃ users, s.answerAfter history ⟨"GET", "/api/users", body⟩ now
              = some ⟨200, .json (.arr users)⟩
            ∧ users.length = 2
            ∧ JSValue.obj [("id", .num (.fin 3)), ("name", name), ("email", email),
                ("createdAt", .date created)] ∉ users := by
  have hans : ∀ (s' : Server) (hist : List (Request × ℤ)) (rq : Request),
      s'.answerAfter hist rq now = some (handle rq now) := by
    intro s' hist rq
    simp [Server.answerAfter, run_eq, step_eq]
  refine ⟨run_eq s history, ⟨handle req now, hans _ _ _, hans _ _ _, hans _ _ _, hans _ _ _⟩,
    fun body name email created => ⟨[
      .obj [("id", .num (.fin 1)), ("name", .str "John"), ("email", .str "john@example.com")],
      .obj [("id", .num (.fin 2)), ("name", .str "Jane"), ("email", .str "jane@example.com")]],
      ?_, rfl, ?_⟩⟩
  · rw [hans, handle_get_users]
  · simp

/-! ## The router selects at most one handler -/

theorem matchLayer_matched_isSome (r : Route) (path : String) (params : List (String × String))
    (h : matchLayer r path = .matched params) : (matchPath r.path path).isSome = true := by
  unfold matchLayer at h
  cases hm : matchPath r.path path with
  | none => simp [hm] at h
  | some caps => rfl

/-- The router runs no handler when no route that is left answers the request. -/
theorem dispatch_runs_nothing (method path : String) :
    ∀ (rs : List Route) (pending : Bool) (opts : List String),
      (∀ r ∈ rs, r.answers method path = false) →
      ∀ h params, dispatch method path rs pending opts ≠ .run h params := by
  intro rs
  induction rs with
  | nil =>
    intro pending opts _ h params
    simp only [dispatch]
    split_ifs <;> simp
  | cons r rs ih =>
    intro pending opts hans h params
    have hrs : ∀ r' ∈ rs, r'.answers method path = false :=
      fun r' hr' => hans r' (List.mem_cons_of_mem _ hr')
    have hr := hans r (List.mem_cons_self _ _)
    simp only [dispatch]
    cases hm : matchLayer r path with
    | noMatch => exact ih _ _ hrs h params
    | decodeError => exact ih _ _ hrs h params
    | matched ps =>
      have hsome := matchLayer_matched_isSome r path ps hm
      have hmeth : handlesMethod r method = false := by
        simpa [Route.answers, hsome] using hr
      simp only [hmeth, Bool.false_eq_true, if_false]
      split_ifs
      · exact ih _ _ hrs h params
      · exact ih _ _ hrs h params
      · exact ih _ _ hrs h params

/-- The router finds nothing when no route that is left answers the request,
no parameter fails to decode, and the method is not OPTIONS or no path
matches. -/
theorem dispatch_notFound (method path : String) :
    ∀ (rs : List Route),
      (∀ r ∈ rs, r.answers method path = false) →
      (∀ r ∈ rs, matchLayer r path ≠ .decodeError) →
      (method ≠ "OPTIONS" ∨ ∀ r ∈ rs, matchPath r.path path = none) →
      dispatch method path rs false [] = .notFound := by
  intro rs
  induction rs with
  | nil => intro _ _ _; simp [dispatch]
  | cons r rs ih =>
    intro hans hdec hopt
    have hrs : ∀ r' ∈ rs, r'.answers method path = false :=
      fun r' hr' => hans r' (List.mem_cons_of_mem _ hr')
    have hdecs : ∀ r' ∈ rs, matchLayer r' path ≠ .decodeError :=
      fun r' hr' => hdec r' (List.mem_cons_of_mem _ hr')
    have hopts : method ≠ "OPTIONS" ∨ ∀ r' ∈ rs, matchPath r'.path path = none :=
      hopt.imp id fun h r' hr' => h r' (List.mem_cons_of_mem _ hr')
    have hr := hans r (List.mem_cons_self _ _)
    simp only [dispatch]
    cases hm : matchLayer r path with
    | noMatch => exact ih hrs hdecs hopts
    | decodeError => exact absurd hm (hdec r (List.mem_cons_self _ _))
    | matched ps =>
      have hsome := matchLayer_matched_isSome r path ps hm
      have hmeth : handlesMethod r method = false := by
        simpa [Route.answers, hsome] using hr
      have hmo : method ≠ "OPTIONS" := by
        rcases hopt with h | h
        · exact h
        · have := h r (List.mem_cons_self _ _)
          simp [this] at hsome
      simp only [hmeth, hmo, Bool.false_eq_true, if_false]
      exact ih hrs hdecs hopts


theorem compilePath_health : compilePath "/health" = [.lit ['h', 'e', 'a', 'l', 't', 'h']] := rfl

theorem compilePath_users :
    compilePath "/api/users" = [.lit ['a', 'p', 'i'], .lit ['u', 's', 'e', 'r', 's']] := rfl

theorem compilePath_sum :
    compilePath "/api/sum/:a/:b"
      = [.lit ['a', 'p', 'i'], .lit ['s', 'u', 'm'], .param "a", .param "b"] := rfl

/-- A literal segment in front of a pattern takes the first segment of the path. -/
theorem matchSegs_lit_isSome (text : List Char) (ps : List Seg) (segs : List (List Char))
    (h : (matchSegs (.lit text :: ps) segs).isSome = true) :
    ∃ s ss, segs = s :: ss ∧ s.map Char.toLower = text.map Char.toLower
      ∧ (matchSegs ps ss).isSome = true := by
  cases segs with
  | nil => simp [matchSegs] at h
  | cons s ss =>
    by_cases hs : s.map Char.toLower = text.map Char.toLower
    · exact ⟨s, ss, rfl, hs, by simpa [matchSegs, hs] using h⟩
    · simp [matchSegs, hs] at h

/-- A parameter in front of a pattern takes the first segment of the path. -/
theorem matchSegs_param_isSome (name : String) (ps : List Seg) (segs : List (List Char))
    (h : (matchSegs (.param name :: ps) segs).isSome = true) :
    ∃ s ss, segs = s :: ss ∧ s ≠ [] ∧ (matchSegs ps ss).isSome = true := by
  cases segs with
  | nil => simp [matchSegs] at h
  | cons s ss =>
    by_cases hs : s = []
    · simp [matchSegs, hs] at h
    · refine ⟨s, ss, rfl, hs, ?_⟩
      cases hm : matchSegs ps ss with
      | none => simp [matchSegs, hs, hm] at h
      | some caps => rfl

/-- The end of a pattern takes the end of the path, or one empty segment. -/
theorem matchSegs_nil_isSome (segs : List (List Char))
    (h : (matchSegs [] segs).isSome = true) : segs = [] ∨ segs = [[]] := by
  rcases segs with _ | ⟨_ | ⟨c, cs⟩, _ | ⟨s, ss⟩⟩ <;> simp [matchSegs] at h ⊢

theorem matchPath_isSome (pattern path : String) (h : (matchPath pattern path).isSome = true) :
    ∃ segs, splitSlash path.toList = [] :: segs
      ∧ (matchSegs (compilePath pattern) segs).isSome = true := by
  unfold matchPath at h
  rcases hs : splitSlash path.toList with _ | ⟨_ | ⟨c, cs⟩, segs⟩
  · rw [hs] at h; simp at h
  · rw [hs] at h; exact ⟨segs, rfl, h⟩
  · rw [hs] at h; simp at h


/-- No path matches both `/health` and a path under `/api`. -/
theorem health_api_disjoint (pattern path : String) (ps : List Seg)
    (hc : compilePath pattern = .lit ['a', 'p', 'i'] :: ps)
    (h1 : (matchPath "/health" path).isSome = true)
    (h2 : (matchPath pattern path).isSome = true) : False := by
  obtain ⟨segs1, hs1, hm1⟩ := matchPath_isSome _ _ h1
  obtain ⟨segs2, hs2, hm2⟩ := matchPath_isSome _ _ h2
  rw [hs1] at hs2
  obtain rfl : segs1 = segs2 := by simpa using hs2
  rw [compilePath_health] at hm1
  rw [hc] at hm2
  obtain ⟨s, ss, rfl, hl1, -⟩ := matchSegs_lit_isSome _ _ _ hm1
  obtain ⟨s', ss', he, hl2, -⟩ := matchSegs_lit_isSome _ _ _ hm2
  obtain ⟨rfl, -⟩ : s = s' ∧ ss = ss' := by simpa using he
  rw [hl1] at hl2
  revert hl2
  decide

/-- No path matches both `/api/users` and `/api/sum/:a/:b`. -/
theorem users_sum_disjoint (path : String)
    (h1 : (matchPath "/api/users" path).isSome = true)
    (h2 : (matchPath "/api/sum/:a/:b" path).isSome = true) : False := by
  obtain ⟨segs1, hs1, hm1⟩ := matchPath_isSome _ _ h1
  obtain ⟨segs2, hs2, hm2⟩ := matchPath_isSome _ _ h2
  rw [hs1] at hs2
  obtain rfl : segs1 = segs2 := by simpa using hs2
  rw [compilePath_users] at hm1
  rw [compilePath_sum] at hm2
  obtain ⟨s, ss, rfl, -, hm1⟩ := matchSegs_lit_isSome _ _ _ hm1
  obtain ⟨s', ss', he, -, hm2⟩ := matchSegs_lit_isSome _ _ _ hm2
  obtain ⟨rfl, rfl⟩ : s = s' ∧ ss = ss' := by simpa using he
  obtain ⟨t, ts, rfl, hl1, -⟩ := matchSegs_lit_isSome _ _ _ hm1
  obtain ⟨t', ts', he', hl2, -⟩ := matchSegs_lit_isSome _ _ _ hm2
  obtain ⟨rfl, -⟩ : t = t' ∧ ts = ts' := by simpa using he'
  rw [hl1] at hl2
  revert hl2
  decide

/-- No method is served both by a route registered for GET and by a route
registered for POST. -/
theorem get_post_disjoint (r1 r2 : Route) (method : String)
    (hm1 : r1.method = "get") (hm2 : r2.method = "post")
    (h1 : handlesMethod r1 method = true) (h2 : handlesMethod r2 method = true) : False := by
  simp only [handlesMethod, hm1, hm2, decide_eq_true_eq] at h1 h2
  by_cases hh : lowerCase method = "head"
  · rw [if_pos ⟨hh, by decide⟩] at h2
    revert h2; decide
  · rw [if_neg (fun h => hh h.1)] at h1 h2
    rw [h1] at h2
    revert h2; decide

/-- The routes are pairwise disjoint: at most one answers a request. -/
theorem answers_unique (method path : String) :
    ∀ r1 ∈ routes, ∀ r2 ∈ routes,
      r1.answers method path = true → r2.answers method path = true → r1 = r2 := by
  intro r1 hr1 r2 hr2 h1 h2
  simp only [Route.answers, Bool.and_eq_true] at h1 h2
  simp only [routes, List.mem_cons, List.mem_singleton, List.not_mem_nil, or_false] at hr1 hr2
  rcases hr1 with rfl | rfl | rfl | rfl <;> rcases hr2 with rfl | rfl | rfl | rfl
  · rfl
  · exact (health_api_disjoint _ _ _ compilePath_users h1.2 h2.2).elim
  · exact (health_api_disjoint _ _ _ compilePath_users h1.2 h2.2).elim
  · exact (health_api_disjoint _ _ _ compilePath_sum h1.2 h2.2).elim
  · exact (health_api_disjoint _ _ _ compilePath_users h2.2 h1.2).elim
  · rfl
  · exact (get_post_disjoint _ _ _ rfl rfl h1.1 h2.1).elim
  · exact (users_sum_disjoint _ h1.2 h2.2).elim
  · exact (health_api_disjoint _ _ _ compilePath_users h2.2 h1.2).elim
  · exact (get_post_disjoint _ _ _ rfl rfl h2.1 h1.1).elim
  · rfl
  · exact (users_sum_disjoint _ h1.2 h2.2).elim
  · exact (health_api_disjoint _ _ _ compilePath_sum h2.2 h1.2).elim
  · exact (users_sum_disjoint _ h2.2 h1.2).elim
  · exact (users_sum_disjoint _ h2.2 h1.2).elim
  · rfl


/-- A handler that the router runs is the handler of a route that answers the
request. -/
theorem dispatch_run_answers (method path : String) :
    ∀ (rs : List Route) (pending : Bool) (opts : List String) (h : Handler)
      (params : List (String × String)),
      dispatch method path rs pending opts = .run h params →
      ∃ r ∈ rs, r.answers method path = true ∧ r.handler = h := by
  intro rs
  induction rs with
  | nil =>
    intro pending opts h params hd
    simp only [dispatch] at hd
    split_ifs at hd
  | cons r rs ih =>
    intro pending opts h params hd
    have lift : (∃ r' ∈ rs, r'.answers method path = true ∧ r'.handler = h) →
        ∃ r' ∈ r :: rs, r'.answers method path = true ∧ r'.handler = h :=
      fun ⟨r', hr', ha⟩ => ⟨r', List.mem_cons_of_mem _ hr', ha⟩
    simp only [dispatch] at hd
    cases hm : matchLayer r path with
    | noMatch => rw [hm] at hd; exact lift (ih _ _ _ _ hd)
    | decodeError => rw [hm] at hd; exact lift (ih _ _ _ _ hd)
    | matched ps =>
      rw [hm] at hd
      simp only at hd
      split_ifs at hd with h1 h2 h3
      · exact lift (ih _ _ _ _ hd)
      · refine ⟨r, List.mem_cons_self _ _, ?_, ?_⟩
        · simp [Route.answers, h2, matchLayer_matched_isSome r path ps hm]
        · exact (Outcome.run.inj hd).1
      · exact lift (ih _ _ _ _ hd)
      · exact lift (ih _ _ _ _ hd)

/-- A path that matches a route runs its handler when the route serves the
method, once no parameter fails to decode. -/
theorem dispatch_runs_answering (method path : String) :
    ∀ (rs : List Route) (opts : List String),
      (∀ r ∈ rs, matchLayer r path ≠ .decodeError) →
      (∃ r ∈ rs, r.answers method path = true) →
      ∃ r ∈ rs, ∃ params, r.answers method path = true
        ∧ matchLayer r path = .matched params
        ∧ dispatch method path rs false opts = .run r.handler params := by
  intro rs
  induction rs with
  | nil => intro _ _ h; simp at h
  | cons r0 rs ih =>
    intro opts hdec hex
    have hdecs : ∀ r' ∈ rs, matchLayer r' path ≠ .decodeError :=
      fun r' hr' => hdec r' (List.mem_cons_of_mem _ hr')
    have lift : ∀ opts', dispatch method path (r0 :: rs) false opts
          = dispatch method path rs false opts' →
        (∃ r ∈ rs, r.answers method path = true) →
        ∃ r ∈ r0 :: rs, ∃ params, r.answers method path = true
          ∧ matchLayer r path = .matched params
          ∧ dispatch method path (r0 :: rs) false opts = .run r.handler params := by
      intro opts' he hex'
      obtain ⟨r, hr, params, ha, hm, hd⟩ := ih opts' hdecs hex'
      exact ⟨r, List.mem_cons_of_mem _ hr, params, ha, hm, he.trans hd⟩
    cases hm : matchLayer r0 path with
    | noMatch =>
      have hno : r0.answers method path = false := by
        unfold matchLayer at hm
        cases hp : matchPath r0.path path with
        | none => simp [Route.answers, hp]
        | some caps =>
          rw [hp] at hm
          cases hd : decodeParams caps <;> simp [hd] at hm
      refine lift opts (by simp only [dispatch, hm]) ?_
      obtain ⟨r, hr, ha⟩ := hex
      rcases List.mem_cons.mp hr with rfl | hr
      · rw [hno] at ha; exact absurd ha (by decide)
      · exact ⟨r, hr, ha⟩
    | decodeError => exact absurd hm (hdec r0 (List.mem_cons_self _ _))
    | matched ps =>
      by_cases hh : handlesMethod r0 method = true
      · refine ⟨r0, List.mem_cons_self _ _, ps, ?_, hm, ?_⟩
        · simp [Route.answers, hh, matchLayer_matched_isSome r0 path ps hm]
        · simp only [dispatch, hm, hh, Bool.false_eq_true, if_false, if_true]
      · have hh' : handlesMethod r0 method = false := by simpa using hh
        have hno : r0.answers method path = false := by simp [Route.answers, hh']
        have hex' : ∃ r ∈ rs, r.answers method path = true := by
          obtain ⟨r, hr, ha⟩ := hex
          rcases List.mem_cons.mp hr with rfl | hr
          · rw [hno] at ha; exact absurd ha (by decide)
          · exact ⟨r, hr, ha⟩
        by_cases ho : method = "OPTIONS"
        · subst ho
          exact lift (appendMethods opts (routeOptions r0)) (by
            simp only [dispatch, hm, hh', Bool.false_eq_true, if_false, if_true]) hex'
        · exact lift opts (by simp only [dispatch, hm, hh', ho, Bool.false_eq_true, if_false])
            hex'

/-- A pattern without parameter captures nothing. -/
theorem matchSegs_lit_captures (t1 : List Char) (segs : List (List Char))
    (caps : List (String × List Char)) (h : matchSegs [.lit t1] segs = some caps) :
    caps = [] := by
  rcases segs with _ | ⟨s, _ | ⟨_ | ⟨c, cs⟩, _ | ⟨s', ss⟩⟩⟩ <;> simp [matchSegs] at h
  · exact h.2
  · exact h.2

/-- A pattern of two literal segments captures nothing. -/
theorem matchSegs_lit_lit_captures (t1 t2 : List Char) (segs : List (List Char))
    (caps : List (String × List Char))
    (h : matchSegs [.lit t1, .lit t2] segs = some caps) : caps = [] := by
  rcases segs with _ | ⟨s, segs⟩
  · simp [matchSegs] at h
  · by_cases hs : s.map Char.toLower = t1.map Char.toLower
    · rw [matchSegs, if_pos hs] at h
      exact matchSegs_lit_captures t2 segs caps h
    · simp [matchSegs, hs] at h

/-- Only the sum route has parameters that can fail to decode. -/
theorem decodeError_is_sum (path : String) (r : Route) (hr : r ∈ routes)
    (h : matchLayer r path = .decodeError) :
    r.path = "/api/sum/:a/:b" ∧ (matchPath "/api/sum/:a/:b" path).isSome = true := by
  have hnone : ∀ (pattern : String),
      (∀ segs caps, matchSegs (compilePath pattern) segs = some caps → caps = []) →
      ∀ r' : Route, r'.path = pattern → matchLayer r' path ≠ .decodeError := by
    intro pattern hcap r' hp hm
    unfold matchLayer at hm
    rw [hp] at hm
    cases hmp : matchPath pattern path with
    | none => simp [hmp] at hm
    | some caps =>
      have : caps = [] := by
        unfold matchPath at hmp
        rcases hs : splitSlash path.toList with _ | ⟨_ | ⟨c, cs⟩, segs⟩ <;> rw [hs] at hmp
        · simp at hmp
        · exact hcap _ _ hmp
        · simp at hmp
      subst this
      simp [hmp, decodeParams] at hm
  have hhealth := hnone "/health" (fun segs caps hc => by
    rw [compilePath_health] at hc; exact matchSegs_lit_captures _ _ _ hc)
  have husers := hnone "/api/users" (fun segs caps hc => by
    rw [compilePath_users] at hc; exact matchSegs_lit_lit_captures _ _ _ _ hc)
  simp only [routes, List.mem_cons, List.mem_singleton, List.not_mem_nil, or_false] at hr
  rcases hr with rfl | rfl | rfl | rfl
  · exact absurd h (hhealth _ rfl)
  · exact absurd h (husers _ rfl)
  · exact absurd h (husers _ rfl)
  · refine ⟨rfl, ?_⟩
    unfold matchLayer at h
    cases hmp : matchPath "/api/sum/:a/:b" path with
    | none => simp [hmp] at h
    | some caps => rfl

/-- A request whose parameter fails to decode is refused, whatever its method. -/
theorem route_badParam (method path : String)
    (h : ∃ r ∈ routes, matchLayer r path = .decodeError) :
    route method path = .badParam := by
  obtain ⟨r, hr, hm⟩ := h
  obtain ⟨hp, hsome⟩ := decodeError_is_sum path r hr hm
  have hsum : matchLayer ⟨"get", "/api/sum/:a/:b", .sum⟩ path = .decodeError := by
    unfold matchLayer at hm ⊢
    rw [hp] at hm
    exact hm
  have noMatch_of : ∀ (r' : Route), (matchPath r'.path path).isSome = false →
      matchLayer r' path = .noMatch := by
    intro r' hn
    unfold matchLayer
    cases hmp : matchPath r'.path path with
    | none => rfl
    | some caps => simp [hmp] at hn
  have h1 : matchLayer ⟨"get", "/health", .health⟩ path = .noMatch :=
    noMatch_of _ (by
      cases hb : (matchPath "/health" path).isSome with
      | false => rfl
      | true => exact (health_api_disjoint _ _ _ compilePath_sum hb hsome).elim)
  have husers : (matchPath "/api/users" path).isSome = false := by
    cases hb : (matchPath "/api/users" path).isSome with
    | false => rfl
    | true => exact (users_sum_disjoint _ hb hsome).elim
  have h2 : matchLayer ⟨"get", "/api/users", .listUsers⟩ path = .noMatch := noMatch_of _ husers
  have h3 : matchLayer ⟨"post", "/api/users", .createUser⟩ path = .noMatch :=
    noMatch_of _ husers
  simp only [route, routes, dispatch, h1, h2, h3, hsum, if_true]

theorem appendMethods_ne_nil (list ms : List String) (h : list ≠ [] ∨ ms ≠ []) :
    appendMethods list ms ≠ [] := by
  induction ms generalizing list with
  | nil =>
    rcases h with h | h
    · simpa [appendMethods] using h
    · exact absurd rfl h
  | cons m ms ih =>
    simp only [appendMethods]
    apply ih
    left
    split_ifs with hm
    · exact List.ne_nil_of_mem hm
    · simp

theorem routeOptions_ne_nil (r : Route) : routeOptions r ≠ [] := by
  unfold routeOptions
  split_ifs <;> simp

/-- An OPTIONS request that no route serves, on a path that some route
matches, is answered with a list of methods that is not empty. -/
theorem dispatch_options (path : String) :
    ∀ (rs : List Route) (opts : List String),
      (∀ r ∈ rs, matchLayer r path ≠ .decodeError) →
      (∀ r ∈ rs, handlesMethod r "OPTIONS" = false) →
      (opts ≠ [] ∨ ∃ r ∈ rs, (matchPath r.path path).isSome = true) →
      ∃ allow, allow ≠ [] ∧ dispatch "OPTIONS" path rs false opts = .options allow := by
  intro rs
  induction rs with
  | nil =>
    intro opts _ _ h
    rcases h with h | ⟨r, hr, -⟩
    · exact ⟨opts, h, by simp [dispatch, h]⟩
    · simp at hr
  | cons r0 rs ih =>
    intro opts hdec hmeth h
    have hdecs : ∀ r' ∈ rs, matchLayer r' path ≠ .decodeError :=
      fun r' hr' => hdec r' (List.mem_cons_of_mem _ hr')
    have hmeths : ∀ r' ∈ rs, handlesMethod r' "OPTIONS" = false :=
      fun r' hr' => hmeth r' (List.mem_cons_of_mem _ hr')
    have hm0 := hmeth r0 (List.mem_cons_self _ _)
    cases hm : matchLayer r0 path with
    | noMatch =>
      have hnone : (matchPath r0.path path).isSome = false := by
        unfold matchLayer at hm
        cases hp : matchPath r0.path path with
        | none => rfl
        | some caps =>
          rw [hp] at hm
          cases hd : decodeParams caps <;> simp [hd] at hm
      have h' : opts ≠ [] ∨ ∃ r ∈ rs, (matchPath r.path path).isSome = true := by
        rcases h with h | ⟨r, hr, hs⟩
        · exact Or.inl h
        · rcases List.mem_cons.mp hr with rfl | hr
          · rw [hnone] at hs; exact absurd hs (by decide)
          · exact Or.inr ⟨r, hr, hs⟩
      obtain ⟨allow, hne, hd⟩ := ih opts hdecs hmeths h'
      exact ⟨allow, hne, by simp only [dispatch, hm]; exact hd⟩
    | decodeError => exact absurd hm (hdec r0 (List.mem_cons_self _ _))
    | matched ps =>
      obtain ⟨allow, hne, hd⟩ := ih (appendMethods opts (routeOptions r0)) hdecs hmeths
        (Or.inl (appendMethods_ne_nil _ _ (Or.inr (routeOptions_ne_nil r0))))
      exact ⟨allow, hne, by
        simp only [dispatch, hm, hm0, Bool.false_eq_true, if_false, if_true]; exact hd⟩

/-- No route of the application serves OPTIONS. -/
theorem routes_not_options : ∀ r ∈ routes, handlesMethod r "OPTIONS" = false := by
  intro r hr
  simp only [routes, List.mem_cons, List.mem_singleton, List.not_mem_nil, or_false] at hr
  rcases hr with rfl | rfl | rfl | rfl <;> rfl

/-- Claim C6, as amended. The four routes are pairwise disjoint over the pairs
of a method and a path, HEAD being served by the routes registered for GET. A
request whose path has the form of the sum route and whose parameter fails to
decode is refused with 400 and runs no handler, whatever its method. Otherwise
a pair that a route answers runs the handler of that route and no other, and a
pair that no route answers runs no handler; it is answered 404, unless it is an
OPTIONS request on a path that some route matches, which is answered 200 with
the list of the allowed methods. DELETE and PUT on /api/users and GET on
/api/sum/5 are answered 404; GET and DELETE on /api/sum/%/3 are answered 400. -/
theorem routing_selects_at_most_one (method path : String) :
    (∀ r1 ∈ routes, ∀ r2 ∈ routes,
        r1.answers method path = true → r2.answers method path = true → r1 = r2)
      ∧ (∀ h params, route method path = .run h params →
          ∃ r ∈ routes, r.answers method path = true ∧ r.handler = h)
      ∧ ((∃ r ∈ routes, matchLayer r path = .decodeError) →
          route method path = .badParam
            ∧ ∀ (body : JSValue) (now : ℤ),
                handle ⟨method, path, body⟩ now = ⟨400, .errorPage⟩)
      ∧ ((∀ r ∈ routes, matchLayer r path ≠ .decodeError) →
          (∀ r ∈ routes, r.answers method path = true →
              ∃ params, matchLayer r path = .matched params
                ∧ route method path = .run r.handler params)
          ∧ ((∀ r ∈ routes, r.answers method path = false) →
              (∀ h params, route method path ≠ .run h params)
              ∧ ((method ≠ "OPTIONS" ∨ ∀ r ∈ routes, matchPath r.path path = none) →
                  ∀ (body : JSValue) (now : ℤ),
                    handle ⟨method, path, body⟩ now = ⟨404, .errorPage⟩)
              ∧ ((method = "OPTIONS" ∧ ∃ r ∈ routes, (matchPath r.path path).isSome = true) →
                  ∃ allow, allow ≠ [] ∧ ∀ (body : JSValue) (now : ℤ),
                    handle ⟨method, path, body⟩ now = ⟨200, .allow allow⟩)))
      ∧ (∀ (body : JSValue) (now : ℤ),
          handle ⟨"DELETE", "/api/users", body⟩ now = ⟨404, .errorPage⟩
            ∧ handle ⟨"PUT", "/api/users", body⟩ now = ⟨404, .errorPage⟩
            ∧ handle ⟨"GET", "/api/sum/5", body⟩ now = ⟨404, .errorPage⟩
            ∧ handle ⟨"GET", "/api/sum/%/3", body⟩ now = ⟨400, .errorPage⟩
            ∧ handle ⟨"DELETE", "/api/sum/%/3", body⟩ now = ⟨400, .errorPage⟩) := by
  refine ⟨answers_unique method path, fun h params hr => dispatch_run_answers _ _ _ _ _ _ _ hr,
    fun hbad => ?_, fun hdec => ⟨fun r hr ha => ?_, fun hans => ⟨dispatch_runs_nothing _ _ _ _ _
      hans, fun hopt body now => ?_, fun hopt => ?_⟩⟩, fun body now => ⟨rfl, rfl, rfl, rfl, rfl⟩⟩
  · have hb := route_badParam method path hbad
    exact ⟨hb, fun body now => by simp [handle, hb]⟩
  · obtain ⟨r', hr', params, ha', hm, hd⟩ :=
      dispatch_runs_answering method path routes [] hdec ⟨r, hr, ha⟩
    obtain rfl : r' = r := answers_unique method path r' hr' r hr ha' ha
    exact ⟨params, hm, hd⟩
  · simp [handle, route, dispatch_notFound method path routes hans hdec hopt]
  · obtain ⟨rfl, hex⟩ := hopt
    obtain ⟨allow, hne, hd⟩ := dispatch_options path routes [] hdec routes_not_options (Or.inr hex)
    exact ⟨allow, hne, fun body now => by simp [handle, route, hd]⟩

/-- Counterexample to claim C6 as stated: no route answers OPTIONS on /health,
and the request is answered 200 with the list of the allowed methods. -/
theorem options_unanswered_gets_200 :
    (∀ r ∈ routes, r.answers "OPTIONS" "/health" = false)
      ∧ handle ⟨"OPTIONS", "/health", .obj []⟩ 0 = ⟨200, .allow ["GET", "HEAD"]⟩ := by
  refine ⟨?_, rfl⟩
  intro r hr
  simp only [routes, List.mem_cons, List.mem_singleton, List.not_mem_nil, or_false] at hr
  rcases hr with rfl | rfl | rfl | rfl <;> rfl

end App
